import Mathlib

/-! A shallow embedding of `main.c`, the single source file of fqsplit.

`fqsplit` splits one FASTQ file into `nSplits` output files, handing blocks of
`bufferRecs` four-line records to the outputs in round-robin order.

The embedding follows `main.c` function by function.

* C strings (`argv` tokens, paths) are `String`; the bytes of the input file are a
  `List Char`, one `Char` per byte, and so are the characters that a successful `fgets`
  stores in `input_buffer`.  What `fputs` writes of them is `fputs_str`: the characters
  before the first NUL.
* C `int` values are `Int`.  The counters of the copy loop are reduced with
  `wrap32` after every increment (two's-complement wrap-around); `%` on `int`
  is `Int.tmod` (truncation toward zero).
* What the C library and the platform supply (`FOPEN_MAX`, `atoi`, whether an
  `fopen` call succeeds, the bytes of the input) is the record `Env`.
* Effects are explicit: `main` returns its exit status together with the list of
  `Event`s (sessions opened and closed, pieces written) in program order.
  Undefined behaviour that the program can reach (an out-of-range slot of
  `outFileInfoArr`, a remainder by zero) is the outcome `fault`.
-/

namespace Fqsplit

/-! ## Constants -/

/-- Exit status `PARSE_ERROR_EXIT_CODE` (main.c line 25). -/
def PARSE_ERROR_EXIT_CODE : Int := 1

/-- Exit status `FILE_OPEN_ERROR_EXIT_CODE` (main.c line 26). -/
def FILE_OPEN_ERROR_EXIT_CODE : Int := 2

/-- Exit status `MAX_SPLITS_REQUEST_ERROR_EXIT_CODE` (main.c line 27). -/
def MAX_SPLITS_REQUEST_ERROR_EXIT_CODE : Int := 3

/-- Number of trailing positional arguments, `MIN_CMDARGS` (main.c line 28). -/
def MIN_CMDARGS : Int := 2

/-- Size of `input_buffer`, `INPUT_BUFFER_SIZE` (main.c line 29). -/
def INPUT_BUFFER_SIZE : Nat := 3200

/-! ## Machine integers -/

/-- Largest value of a 32-bit C `int`. -/
def INT_MAX : Int := 2147483647

/-- Two-complement reduction of an integer to the range of a 32-bit C `int`. -/
def wrap32 (x : Int) : Int := (x + 2147483648) % 4294967296 - 2147483648

/-! ## Data model -/

/-- The struct `UserArgs` (main.c lines 34-41). -/
structure UserArgs where
  nSplits : Int
  bufferRecs : Int
  smkFormat : Bool
  outputDir : String
  outputBase : String
  inputFastq : String
  deriving DecidableEq, Repr

/-- What the platform and the C library supply to one run of the program. -/
structure Env where
  /-- The constant `FOPEN_MAX` of `stdio.h`. -/
  FOPEN_MAX : Int
  /-- The conversion `atoi` of `stdlib.h`. -/
  atoi : String → Int
  /-- Whether the `fopen` inside the `k`-th call of `file_open` of the run (counted from 0:
  the input is call 0, the output of index `i` is call `i + 1`), on the given path and mode,
  returns a stream. -/
  fopen_ok : Nat → String → String → Bool
  /-- The characters that the input stream delivers. -/
  input : List Char

/-- A file session of the run: the input `FileInfo` or the slot `i` of `outFileInfoArr`. -/
inductive Handle where
  | input
  | output (i : Nat)
  deriving DecidableEq, Repr

/-- Observable effects of a run, in program order. -/
inductive Event where
  /-- A `file_open` call that returned 0 -/
  | opened (h : Handle)
  /-- A `file_close` call -/
  | closed (h : Handle)
  /-- The call `fputs(input_buffer, outFileInfoArr[arrIdx]->fptr)`, with the characters that it
  writes -/
  | wrote (arrIdx : Int) (piece : List Char)
  deriving DecidableEq, Repr

/-- Undefined behaviour reachable in the copy loop. -/
inductive Fault where
  /-- The slot `outFileInfoArr[arrIdx]` is used although it is not one of the `nSplits` opened
  sessions -/
  | badIndex (arrIdx : Int)
  /-- The remainder `(arrIdx + 1) % nSplits` is taken with `nSplits = 0` -/
  | divByZero
  deriving DecidableEq, Repr

/-- How a run ends: `exit(code)` (or `return code` from `main`), or undefined behaviour. -/
inductive Outcome where
  | exit (code : Int)
  | fault (f : Fault)
  deriving DecidableEq, Repr

/-! ## Command line parsing -/

/-- Comparison of two character sequences as `strcmp` does: zero exactly for equal strings,
negative or positive by the first differing character. -/
def strcmp_chars : List Char → List Char → Int
  | [], [] => 0
  | [], _ :: _ => -1
  | _ :: _, [] => 1
  | a :: as, b :: bs =>
    if a = b then strcmp_chars as bs else if a.toNat < b.toNat then -1 else 1

/-- The function `strcmp` of `string.h`. -/
def strcmp (a b : String) : Int := strcmp_chars a.data b.data

/-- The loop of `flag_parser` (main.c lines 355-361) over the remaining values of `i`. -/
def flag_parser_loop (shortflag longflag failstr : String) (argv : List String) (argc : Int) :
    List Nat → String
  | [] => failstr
  | i :: is =>
    let test := strcmp (argv.getD i "") shortflag * strcmp (argv.getD i "") longflag
    if test = 0 ∧ (i : Int) < argc - 1 then argv.getD (i + 1) ""
    else flag_parser_loop shortflag longflag failstr argv argc is

/-- The function `flag_parser` (main.c lines 352-363): `i` runs over `0, 1, ..., argc - 1`. -/
def flag_parser_fn (shortflag longflag failstr : String) (argv : List String) (argc : Int) :
    String :=
  flag_parser_loop shortflag longflag failstr argv argc (List.range argc.toNat)

/-- The loop of `switch_parser` (main.c lines 378-384) over the remaining values of `i`. -/
def switch_parser_loop (shortflag longflag : String) (argv : List String) : List Nat → Bool
  | [] => false
  | i :: is =>
    let test := strcmp (argv.getD i "") shortflag * strcmp (argv.getD i "") longflag
    if test = 0 then true else switch_parser_loop shortflag longflag argv is

/-- The function `switch_parser` (main.c lines 376-386). -/
def switch_parser_fn (shortflag longflag : String) (argv : List String) (argc : Int) : Bool :=
  switch_parser_loop shortflag longflag argv (List.range argc.toNat)

/-- The assignment of `uargs` in `main` (lines 163-168), for `argc = argv.length`. -/
def parse_user_args (env : Env) (argv : List String) : UserArgs :=
  let argc : Int := argv.length
  { nSplits := env.atoi (flag_parser_fn "-n" "--n-splits" "5" argv (argc - MIN_CMDARGS))
    bufferRecs := env.atoi (flag_parser_fn "-b" "--buffer-recs" "100" argv (argc - MIN_CMDARGS))
    smkFormat := switch_parser_fn "-s" "--smk-format" argv (argc - MIN_CMDARGS)
    outputDir := flag_parser_fn "-o" "--outdir" "." argv (argc - MIN_CMDARGS)
    outputBase := argv.getD (argc - 2).toNat ""
    inputFastq := argv.getD (argc - 1).toNat "" }

/-! ## Output paths -/

/-- The conversion `%d` of `sprintf`: decimal digits, with a leading minus sign for a negative
value. -/
def fmt_d (d : Int) : String :=
  if d < 0 then "-" ++ Nat.repr d.natAbs else Nat.repr d.natAbs

/-- An argument of `sprintf`. -/
inductive FmtArg where
  | str (s : String)
  | int (d : Int)

/-- The function `sprintf` for the conversions `%s` and `%d`: the format is copied character by
character and each conversion consumes the next argument. -/
def sprintf_chars : List Char → List FmtArg → List Char
  | [], _ => []
  | [c], _ => [c]
  | c :: d :: rest, args =>
    if c = '%' then
      match d, args with
      | 's', FmtArg.str s :: args => s.data ++ sprintf_chars rest args
      | 'd', FmtArg.int n :: args => (fmt_d n).data ++ sprintf_chars rest args
      | _, _ => c :: sprintf_chars (d :: rest) args
    else c :: sprintf_chars (d :: rest) args

/-- The string that `sprintf(pathstr, fmt, ...)` stores in `pathstr`. -/
def sprintf (fmt : String) (args : List FmtArg) : String :=
  String.mk (sprintf_chars fmt.data args)

/-- The function `build_outpath` (main.c lines 442-447); the result is the string stored in
`pathstr`.  The field `smkFormat` of `uargs` is not read.  The capacity of the destination
(`PATH_MAX` characters in `main`) is the concern of the caller and is not part of the model. -/
def build_outpath (uargs : UserArgs) (splitidx : Int) : String :=
  sprintf "%s/%d-of-%d.%s.fastq"
    [FmtArg.str uargs.outputDir, FmtArg.int splitidx, FmtArg.int uargs.nSplits,
     FmtArg.str uargs.outputBase]

/-! ## File sessions -/

/-- The function `file_open` (main.c lines 399-415): the path `-` binds `stdin` without a call
of `fopen`; `attempt` numbers the calls of `file_open` of the run. -/
def file_open (env : Env) (attempt : Nat) (fpath fmode : String) : Int :=
  if strcmp fpath "-" = 0 then 0
  else if env.fopen_ok attempt fpath fmode then 0 else 1

/-! ## Reading the input -/

/-- The characters that one call of `fgets` stores, and the rest of the stream: reading stops
after `room` characters, after a newline, or at the end of the stream. -/
def fgets_take : Nat → List Char → List Char × List Char
  | 0, s => ([], s)
  | _ + 1, [] => ([], [])
  | room + 1, c :: s =>
    if c = '\n' then ([c], s)
    else ((c :: (fgets_take room s).1), (fgets_take room s).2)

/-- The call `fgets(input_buffer, size, stream)`: `none` is the NULL result at the end of the
stream, otherwise the buffer content (at most `size - 1` characters) and the rest of the
stream. -/
def fgets (size : Nat) (stream : List Char) : Option (List Char × List Char) :=
  match stream with
  | [] => none
  | _ :: _ => some (fgets_take (size - 1) stream)

/-- The successive buffer contents of `while (fgets(...) != NULL)`, for at most `fuel`
iterations. -/
def fgets_loop (size : Nat) : Nat → List Char → List (List Char)
  | 0, _ => []
  | fuel + 1, stream =>
    match fgets size stream with
    | none => []
    | some (piece, rest) => piece :: fgets_loop size fuel rest

/-- The successive buffer contents until `fgets` returns NULL: every call consumes at least one
character, so `stream.length` iterations exhaust the stream. -/
def fgets_stream (size : Nat) (stream : List Char) : List (List Char) :=
  fgets_loop size stream.length stream

/-! ## The copy loop -/

/-- The NUL character, which ends a C string. -/
def NUL : Char := Char.ofNat 0

/-- The characters that `fputs(input_buffer, f)` writes when `fgets` has stored `buf` in
`input_buffer`: `fgets` puts a NUL after `buf`, and `fputs` writes up to the first NUL. -/
def fputs_str (buf : List Char) : List Char := buf.takeWhile (fun c => c != NUL)

/-- The counters of the copy loop (main.c line 238). -/
structure LoopState where
  lineIdx : Int
  recIdx : Int
  arrIdx : Int
  deriving DecidableEq, Repr

/-- The initial counters `lineIdx = 0, recIdx = 0, arrIdx = 0`. -/
def LoopState.init : LoopState := { lineIdx := 0, recIdx := 0, arrIdx := 0 }

/-- The counter updates of one iteration (main.c lines 242-249). -/
def copy_step (nSplits bufferRecs : Int) (st : LoopState) : Except Fault LoopState :=
  let lineIdx := wrap32 (st.lineIdx + 1)
  let recIdx := if Int.tmod lineIdx 4 = 0 then wrap32 (st.recIdx + 1) else st.recIdx
  if recIdx = bufferRecs then
    if nSplits = 0 then Except.error Fault.divByZero
    else Except.ok
      { lineIdx := lineIdx, recIdx := 0
        arrIdx := Int.tmod (wrap32 (st.arrIdx + 1)) nSplits }
  else Except.ok { lineIdx := lineIdx, recIdx := recIdx, arrIdx := st.arrIdx }

/-- The copy loop (main.c lines 239-250) over the successive buffer contents: the writes made,
as pairs of the index `arrIdx` and the characters written by `fputs`, and the fault that
stopped the loop, if any. -/
def copy_loop (nSplits bufferRecs : Int) :
    LoopState → List (List Char) → List (Int × List Char) × Option Fault
  | _, [] => ([], none)
  | st, piece :: rest =>
    if 0 ≤ st.arrIdx ∧ st.arrIdx < nSplits then
      match copy_step nSplits bufferRecs st with
      | Except.error f => ([(st.arrIdx, fputs_str piece)], some f)
      | Except.ok st' =>
        ((st.arrIdx, fputs_str piece) :: (copy_loop nSplits bufferRecs st' rest).1,
          (copy_loop nSplits bufferRecs st' rest).2)
    else ([], some (Fault.badIndex st.arrIdx))

/-- The content of output `i` after the given writes: the pieces written to it, in order. -/
def shard (writes : List (Int × List Char)) (i : Int) : List (List Char) :=
  (writes.filter (fun w => w.1 = i)).map (fun w => w.2)

/-! ## The program -/

/-- The loop that opens the outputs (main.c lines 199-218) over the remaining values of `i`.
`Except.ok` carries the events of a loop that ran to its end; `Except.error` carries the events
up to the `exit` of line 216, the unwinding of lines 207-213 included. -/
def open_outputs (env : Env) (uargs : UserArgs) : List Nat → Except (List Event) (List Event)
  | [] => Except.ok []
  | i :: is =>
    let fpath := build_outpath uargs ((i : Int) + 1)
    let fstatus := file_open env (i + 1) fpath "w"
    if fstatus ≠ 0 then
      Except.error
        (((List.range i).reverse.map (fun j => Event.closed (Handle.output j)))
          ++ [Event.closed Handle.input])
    else
      match open_outputs env uargs is with
      | Except.ok evs => Except.ok (Event.opened (Handle.output i) :: evs)
      | Except.error evs => Except.error (Event.opened (Handle.output i) :: evs)

/-- The function `main` (main.c lines 142-272) on the argument vector `argv`, with
`argc = argv.length`: the way the run ends and its events. -/
def main (env : Env) (argv : List String) : Outcome × List Event :=
  let argc : Int := argv.length
  if switch_parser_fn "-h" "--help" argv argc then (Outcome.exit PARSE_ERROR_EXIT_CODE, [])
  else if argc > MIN_CMDARGS + 1 then
    let uargs := parse_user_args env argv
    if file_open env 0 uargs.inputFastq "r" ≠ 0 then
      (Outcome.exit FILE_OPEN_ERROR_EXIT_CODE, [])
    else if uargs.nSplits < env.FOPEN_MAX - 1 then
      match open_outputs env uargs (List.range uargs.nSplits.toNat) with
      | Except.error evs =>
        (Outcome.exit FILE_OPEN_ERROR_EXIT_CODE, Event.opened Handle.input :: evs)
      | Except.ok evs =>
        let run := copy_loop uargs.nSplits uargs.bufferRecs LoopState.init
          (fgets_stream INPUT_BUFFER_SIZE env.input)
        let writes := run.1.map (fun w => Event.wrote w.1 w.2)
        match run.2 with
        | some f => (Outcome.fault f, Event.opened Handle.input :: (evs ++ writes))
        | none =>
          (Outcome.exit 0,
            Event.opened Handle.input :: (evs ++ writes
              ++ (List.range uargs.nSplits.toNat).map (fun i => Event.closed (Handle.output i))
              ++ [Event.closed Handle.input]))
    else
      (Outcome.exit MAX_SPLITS_REQUEST_ERROR_EXIT_CODE,
        [Event.opened Handle.input, Event.closed Handle.input])
  else (Outcome.exit PARSE_ERROR_EXIT_CODE, [])

/-- The counters of the copy loop after `k` iterations, for positive `nSplits = n` and
`bufferRecs = b`. -/
def LoopInv (n b : Int) (k : Nat) (st : LoopState) : Prop :=
  st.lineIdx = wrap32 k ∧ st.recIdx = ((k : Int) / 4) % b ∧ st.arrIdx = ((k : Int) / (4 * b)) % n

/-! ## Session bookkeeping -/

/-- Replays the session events of a run over the set of sessions that are open: `none` when a
session is opened while open, or closed while not open; otherwise the sessions left open. -/
def track_sessions : Finset Handle → List Event → Option (Finset Handle)
  | S, [] => some S
  | S, Event.opened h :: es => if h ∈ S then none else track_sessions (insert h S) es
  | S, Event.closed h :: es => if h ∈ S then track_sessions (S.erase h) es else none
  | S, Event.wrote _ _ :: es => track_sessions S es

/-- Every close is of a session that is open at that moment, no session is opened twice, and
at the end of the events no session is left open: each opened session is closed exactly once
and nothing else is closed. -/
def sessions_paired (evs : List Event) : Prop := track_sessions ∅ evs = some ∅

instance instDecidableSessionsPaired (evs : List Event) : Decidable (sessions_paired evs) := by
  unfold sessions_paired; infer_instance

/-- The input session together with the output sessions `m, ..., n - 1`. -/
def open_set (m n : Nat) : Finset Handle :=
  insert Handle.input ((Finset.Ico m n).image Handle.output)

/-! ## Decimal numerals -/

/-- Value of a decimal digit character. -/
def digit_value (c : Char) : Nat := c.toNat - 48

/-- Value of a sequence of decimal digits, most significant first, on top of `acc`. -/
def decode_digits (acc : Nat) (cs : List Char) : Nat :=
  cs.foldl (fun a c => a * 10 + digit_value c) acc

/-! ## Lines -/

/-- A newline-terminated line: the last character is the only newline. -/
def is_line (l : List Char) : Bool :=
  l.getLast? = some '\n' && l.dropLast.all (fun c => c != '\n')

/-- A line that one call of `fgets` with a buffer of `size` characters reads whole: it is not
empty, it has at most `size - 1` characters, and no character before its last is a newline. -/
def fits_buffer (size : Nat) (l : List Char) : Bool :=
  l != [] && decide (l.length ≤ size - 1) && l.dropLast.all (fun c => c != '\n')

/-- The lines of an input, each of which fits a buffer of `size` characters: every line but the
last ends with its newline; the last line may end with a newline or where the input ends. -/
def lines_fit (size : Nat) : List (List Char) → Bool
  | [] => true
  | [l] => fits_buffer size l
  | l :: m :: rest =>
    fits_buffer size l && l.getLast? = some '\n' && lines_fit size (m :: rest)

/-- No line holds a NUL character. -/
def no_nul (L : List (List Char)) : Bool :=
  L.all (fun l => l.all (fun c => c != NUL))

/-! ## Sample runs -/

/-- Digits of a decimal numeral, accumulated from the left; scanning stops at the first
character that is not a digit. -/
def atoi_digits : Int → List Char → Int
  | acc, [] => acc
  | acc, c :: cs =>
    if c.isDigit then atoi_digits (acc * 10 + ((c.toNat : Int) - 48)) cs else acc

/-- An `atoi` for the sample runs: optional sign, then decimal digits. -/
def atoi_decimal (s : String) : Int :=
  match s.data with
  | '-' :: cs => wrap32 (- atoi_digits 0 cs)
  | '+' :: cs => wrap32 (atoi_digits 0 cs)
  | cs => wrap32 (atoi_digits 0 cs)

/-- A platform with `FOPEN_MAX = 16` on which every `fopen` succeeds; the input is one
record. -/
def sample_env : Env :=
  { FOPEN_MAX := 16
    atoi := atoi_decimal
    fopen_ok := fun _ _ _ => true
    input := "@r\nACGT\n+\nIIII\n".data }

/-- The platform `sample_env`, except that the fourth `fopen` of the run fails: the call for
the output of index 2. -/
def sample_env_fail : Env :=
  { FOPEN_MAX := 16
    atoi := atoi_decimal
    fopen_ok := fun k _ _ => k != 3
    input := "@r\nACGT\n+\nIIII\n".data }

/-- The four lines of the input of `sample_env`. -/
def sample_record : List (List Char) :=
  ["@r\n".data, "ACGT\n".data, "+\n".data, "IIII\n".data]

/-- Two records of four short lines each. -/
def sample_lines : List (List Char) :=
  ["@r1\n".data, "ACGT\n".data, "+\n".data, "IIII\n".data,
   "@r2\n".data, "TTGA\n".data, "+\n".data, "IIII\n".data]

/-- A sequence line of 3200 bases and its newline: 3201 characters. -/
def long_line : List Char := List.replicate 3200 'A' ++ ['\n']

/-- One complete four-line record whose second line is `long_line`. -/
def long_record : List Char := ['@', 'r', '\n'] ++ long_line ++ ['+', '\n'] ++ ['I', '\n']

/-- A quality line of 3200 characters and its newline: 3201 characters. -/
def long_qual : List Char := List.replicate 3200 'I' ++ ['\n']

/-- A line of six characters whose third character is NUL. -/
def nul_line : List Char := ['A', 'B', NUL, 'C', 'D', '\n']

/-! ## Machine integers: lemmas -/

theorem wrap32_of_range (x : Int) (h0 : -2147483648 ≤ x) (h1 : x ≤ INT_MAX) : wrap32 x = x := by
  unfold wrap32 INT_MAX at *; omega

theorem wrap32_succ (x : Int) : wrap32 (wrap32 x + 1) = wrap32 (x + 1) := by
  unfold wrap32; omega

theorem tmod_four_eq_zero (x : Int) : Int.tmod x 4 = 0 ↔ x % 4 = 0 := by
  constructor
  · intro h
    have := Int.dvd_of_tmod_eq_zero h
    omega
  · intro h
    apply Int.tmod_eq_zero_of_dvd
    omega

theorem wrap32_tmod_four (x : Int) : Int.tmod (wrap32 x) 4 = 0 ↔ x % 4 = 0 := by
  rw [tmod_four_eq_zero]; unfold wrap32; omega

theorem succ_ediv_emod (q b : Int) (hb : 0 < b) :
    (q % b + 1 = b → (q + 1) % b = 0 ∧ (q + 1) / b = q / b + 1) ∧
    (q % b + 1 ≠ b → (q + 1) % b = q % b + 1 ∧ (q + 1) / b = q / b) := by
  have hq : q + 1 = (q % b + 1) + b * (q / b) := by
    have := Int.emod_add_ediv q b; omega
  have h0 := Int.emod_nonneg q (ne_of_gt hb)
  have h1 := Int.emod_lt_of_pos q hb
  have hbne : b ≠ 0 := ne_of_gt hb
  constructor
  · intro h
    rw [hq, Int.add_mul_emod_self_left, Int.add_mul_ediv_left _ _ hbne, h]
    simp [Int.ediv_self hbne]; omega
  · intro h
    have hlt : q % b + 1 < b := by omega
    rw [hq, Int.add_mul_emod_self_left, Int.add_mul_ediv_left _ _ hbne,
      Int.emod_eq_of_lt (by omega) hlt, Int.ediv_eq_zero_of_lt (by omega) hlt]
    omega

theorem ediv_four_mul (k : Nat) (b : Int) (hb : 0 < b) :
    (k : Int) / (4 * b) = (k : Int) / 4 / b := by
  obtain ⟨c, rfl⟩ := Int.eq_ofNat_of_zero_le (le_of_lt hb)
  norm_cast
  rw [Nat.div_div_eq_div_mul]

theorem copy_step_inv (n b : Int) (hn : 1 ≤ n) (hn' : n ≤ INT_MAX) (hb : 1 ≤ b)
    (hb' : b ≤ INT_MAX) (k : Nat) (st : LoopState) (h : LoopInv n b k st) :
    ∃ st', copy_step n b st = Except.ok st' ∧ LoopInv n b (k + 1) st' := by
  obtain ⟨h1, h2, h3⟩ := h
  have hbpos : 0 < b := by omega
  have hnpos : 0 < n := by omega
  have hq := succ_ediv_emod ((k : Int) / 4) b hbpos
  have hr0 := Int.emod_nonneg ((k : Int) / 4) (ne_of_gt hbpos)
  have hr1 := Int.emod_lt_of_pos ((k : Int) / 4) hbpos
  have ha0 := Int.emod_nonneg ((k : Int) / (4 * b)) (ne_of_gt hnpos)
  have ha1 := Int.emod_lt_of_pos ((k : Int) / (4 * b)) hnpos
  have hdd := ediv_four_mul k b hbpos
  have hdd' := ediv_four_mul (k + 1) b hbpos
  push_cast at hdd'
  have hk : (0 : Int) ≤ k := Int.ofNat_nonneg k
  unfold copy_step
  simp only [h1, h2, h3, wrap32_succ, wrap32_tmod_four]
  unfold LoopInv
  push_cast
  by_cases hrec : ((k : Int) + 1) % 4 = 0
  · have hdiv : ((k : Int) + 1) / 4 = (k : Int) / 4 + 1 := by omega
    rw [if_pos hrec, wrap32_of_range _ (by omega) (by unfold INT_MAX at *; omega)]
    by_cases hrot : (k : Int) / 4 % b + 1 = b
    · obtain ⟨e1, e2⟩ := hq.1 hrot
      rw [if_pos hrot, if_neg (by omega)]
      refine ⟨_, rfl, rfl, ?_, ?_⟩
      · simp only [hdiv, e1]
      · simp only
        rw [wrap32_of_range _ (by omega) (by unfold INT_MAX at *; omega),
          Int.tmod_eq_emod (by omega) (by omega), Int.emod_add_emod, hdd, hdd', hdiv, e2]
    · obtain ⟨e1, e2⟩ := hq.2 hrot
      rw [if_neg hrot]
      refine ⟨_, rfl, rfl, ?_, ?_⟩
      · simp only [hdiv, e1]
      · simp only [hdd, hdd', hdiv, e2]
  · have hdiv : ((k : Int) + 1) / 4 = (k : Int) / 4 := by omega
    rw [if_neg hrec, if_neg (by omega)]
    refine ⟨_, rfl, rfl, ?_, ?_⟩
    · simp only [hdiv]
    · simp only [hdd, hdd', hdiv]

theorem copy_loop_inv (n b : Int) (hn : 1 ≤ n) (hn' : n ≤ INT_MAX) (hb : 1 ≤ b)
    (hb' : b ≤ INT_MAX) (L : List (List Char)) :
    ∀ (k : Nat) (st : LoopState), LoopInv n b k st →
      copy_loop n b st L
        = ((L.enumFrom k).map
            (fun kl => (((kl.1 : Int) / (4 * b)) % n, fputs_str kl.2)), none) := by
  induction L with
  | nil => intro k st _; simp [copy_loop]
  | cons p rest ih =>
    intro k st h
    obtain ⟨st', hs, hinv⟩ := copy_step_inv n b hn hn' hb hb' k st h
    have hnpos : 0 < n := by omega
    have ha0 := Int.emod_nonneg ((k : Int) / (4 * b)) (ne_of_gt hnpos)
    have ha1 := Int.emod_lt_of_pos ((k : Int) / (4 * b)) hnpos
    have harr : st.arrIdx = ((k : Int) / (4 * b)) % n := h.2.2
    simp only [copy_loop, hs, ih (k + 1) st' hinv, harr]
    rw [if_pos ⟨ha0, ha1⟩]
    simp [List.enumFrom]

/-! ## The copy loop: lemmas -/

/-- One iteration keeps the output index inside `[0, nSplits)` -/
theorem copy_step_index (n b : Int) (hn : 1 ≤ n) (hn' : n ≤ INT_MAX) (st : LoopState)
    (h0 : 0 ≤ st.arrIdx) (h1 : st.arrIdx < n) :
    ∃ st', copy_step n b st = Except.ok st' ∧ 0 ≤ st'.arrIdx ∧ st'.arrIdx < n := by
  have hnpos : 0 < n := by omega
  have hw : wrap32 (st.arrIdx + 1) = st.arrIdx + 1 :=
    wrap32_of_range _ (by omega) (by omega)
  have hm : Int.tmod (st.arrIdx + 1) n = (st.arrIdx + 1) % n :=
    Int.tmod_eq_emod (by omega) (by omega)
  have e0 := Int.emod_nonneg (st.arrIdx + 1) (ne_of_gt hnpos)
  have e1 := Int.emod_lt_of_pos (st.arrIdx + 1) hnpos
  unfold copy_step
  simp only [hw, hm]
  split_ifs <;> first
    | omega
    | exact ⟨_, rfl, e0, e1⟩
    | exact ⟨_, rfl, h0, h1⟩

theorem copy_loop_lossless (n b : Int) (hn : 1 ≤ n) (hn' : n ≤ INT_MAX) (L : List (List Char)) :
    ∀ st : LoopState, 0 ≤ st.arrIdx → st.arrIdx < n →
      (copy_loop n b st L).2 = none ∧
      (copy_loop n b st L).1.map Prod.snd = L.map fputs_str ∧
      ∀ w ∈ (copy_loop n b st L).1, 0 ≤ w.1 ∧ w.1 < n := by
  induction L with
  | nil => intro st _ _; simp [copy_loop]
  | cons p rest ih =>
    intro st h0 h1
    obtain ⟨st', hs, h0', h1'⟩ := copy_step_index n b hn hn' st h0 h1
    obtain ⟨i1, i2, i3⟩ := ih st' h0' h1'
    simp only [copy_loop, hs, if_pos (And.intro h0 h1)]
    refine ⟨i1, by simp [i2], ?_⟩
    intro w hw
    rcases List.mem_cons.1 hw with rfl | hw
    · exact ⟨h0, h1⟩
    · exact i3 w hw

theorem shard_sublist (ws : List (Int × List Char)) (i : Int) :
    (shard ws i).Sublist (ws.map Prod.snd) := by
  unfold shard
  exact List.Sublist.map _ (List.filter_sublist _)

theorem shard_length_sum (N : Nat) (ws : List (Int × List Char))
    (h : ∀ w ∈ ws, 0 ≤ w.1 ∧ w.1 < (N : Int)) :
    ∑ i ∈ Finset.range N, (shard ws (i : Int)).length = ws.length := by
  induction ws with
  | nil => simp [shard]
  | cons w ws ih =>
    have hw := h w (List.mem_cons_self _ _)
    have ih' := ih (fun v hv => h v (List.mem_cons_of_mem _ hv))
    have key : ∀ i : Nat, (shard (w :: ws) (i : Int)).length
        = (if w.1.toNat = i then 1 else 0) + (shard ws (i : Int)).length := by
      intro i
      unfold shard
      by_cases hi : w.1 = (i : Int)
      · have : w.1.toNat = i := by omega
        simp [List.filter_cons, hi, this]; omega
      · have : ¬ w.1.toNat = i := by omega
        simp [List.filter_cons, hi, this]
    simp only [key, Finset.sum_add_distrib, ih', Finset.sum_ite_eq, Finset.mem_range]
    rw [if_pos (by omega)]; simp; omega

/-! ## Command line parsing: lemmas -/

theorem strcmp_chars_eq_zero : ∀ a b : List Char, strcmp_chars a b = 0 ↔ a = b
  | [], [] => by simp [strcmp_chars]
  | [], _ :: _ => by simp [strcmp_chars]
  | _ :: _, [] => by simp [strcmp_chars]
  | a :: as, b :: bs => by
    by_cases h : a = b
    · simp [strcmp_chars, h, strcmp_chars_eq_zero as bs]
    · by_cases h2 : a.toNat < b.toNat <;> simp [strcmp_chars, h, h2]

theorem strcmp_eq_zero (a b : String) : strcmp a b = 0 ↔ a = b := by
  unfold strcmp
  rw [strcmp_chars_eq_zero, String.ext_iff]

/-- The test of both parsers is zero exactly when the token is one of the two spellings -/
theorem flag_test_eq_zero (x sf lf : String) :
    strcmp x sf * strcmp x lf = 0 ↔ x = sf ∨ x = lf := by
  rw [mul_eq_zero, strcmp_eq_zero, strcmp_eq_zero]

theorem getD_eq_iff (argv : List String) (i : Nat) (h : i < argv.length) (x : String) :
    argv.getD i "" = x ↔ argv[i]? = some x := by
  simp [List.getD, List.getElem?_eq_getElem h]

theorem flag_parser_loop_skip (sf lf fs : String) (argv : List String) (argc : Int)
    (pre rest : List Nat)
    (h : ∀ i ∈ pre, ¬ (argv.getD i "" = sf ∨ argv.getD i "" = lf)) :
    flag_parser_loop sf lf fs argv argc (pre ++ rest)
      = flag_parser_loop sf lf fs argv argc rest := by
  induction pre with
  | nil => rfl
  | cons i is ih =>
    have hi := h i (List.mem_cons_self _ _)
    rw [← flag_test_eq_zero] at hi
    simp only [List.cons_append, flag_parser_loop, hi, false_and, if_false]
    exact ih (fun k hk => h k (List.mem_cons_of_mem _ hk))

theorem range_split (N j : Nat) (h : j < N) :
    List.range N = List.range j ++ j :: List.range' (j + 1) (N - j - 1) := by
  have h1 : N = (N - j - 1 + 1) + j := by omega
  conv_lhs => rw [h1, List.range_eq_range', ← List.range'_append 0 j (N - j - 1 + 1) 1]
  simp [List.range_eq_range', List.range'_succ]

theorem flag_parser_spec (sf lf fs : String) (argv : List String) (argc : Int)
    (hargc : argc ≤ argv.length) :
    (∀ j : Nat, (j : Int) < argc → (argv[j]? = some sf ∨ argv[j]? = some lf) →
        (∀ i : Nat, i < j → argv[i]? ≠ some sf ∧ argv[i]? ≠ some lf) →
        ((j : Int) < argc - 1 → some (flag_parser_fn sf lf fs argv argc) = argv[j + 1]?) ∧
        ((j : Int) = argc - 1 → flag_parser_fn sf lf fs argv argc = fs)) ∧
    ((∀ i : Nat, (i : Int) < argc → argv[i]? ≠ some sf ∧ argv[i]? ≠ some lf) →
        flag_parser_fn sf lf fs argv argc = fs) := by
  constructor
  · intro j hj hm hfirst
    have hjN : j < argc.toNat := by omega
    have hpre : ∀ i ∈ List.range j, ¬ (argv.getD i "" = sf ∨ argv.getD i "" = lf) := by
      intro i hi
      have hij : i < j := List.mem_range.1 hi
      rw [getD_eq_iff argv i (by omega), getD_eq_iff argv i (by omega)]
      have := hfirst i hij
      tauto
    have hmj : strcmp (argv.getD j "") sf * strcmp (argv.getD j "") lf = 0 := by
      rw [flag_test_eq_zero, getD_eq_iff argv j (by omega), getD_eq_iff argv j (by omega)]
      exact hm
    unfold flag_parser_fn
    rw [range_split _ j hjN, flag_parser_loop_skip sf lf fs argv argc _ _ hpre]
    constructor
    · intro hlt
      have hlen : j + 1 < argv.length := by omega
      simp only [flag_parser_loop, hmj, hlt, and_self, if_true]
      simp [List.getD, List.getElem?_eq_getElem hlen]
    · intro heq
      have h0 : argc.toNat - j - 1 = 0 := by omega
      have hnlt : ¬ ((j : Int) < argc - 1) := by omega
      simp [flag_parser_loop, hnlt, h0]
  · intro hnone
    unfold flag_parser_fn
    have := flag_parser_loop_skip sf lf fs argv argc (List.range argc.toNat) [] (by
      intro i hi
      have hiN : i < argc.toNat := List.mem_range.1 hi
      rw [getD_eq_iff argv i (by omega), getD_eq_iff argv i (by omega)]
      have := hnone i (by omega)
      tauto)
    simpa [flag_parser_loop] using this

theorem switch_parser_loop_true (sf lf : String) (argv : List String) (is : List Nat) :
    switch_parser_loop sf lf argv is = true
      ↔ ∃ i ∈ is, argv.getD i "" = sf ∨ argv.getD i "" = lf := by
  induction is with
  | nil => simp [switch_parser_loop]
  | cons i is ih =>
    by_cases h : strcmp (argv.getD i "") sf * strcmp (argv.getD i "") lf = 0
    · simp only [switch_parser_loop, h, if_true, true_iff]
      exact ⟨i, List.mem_cons_self _ _, (flag_test_eq_zero _ _ _).1 h⟩
    · simp only [switch_parser_loop, h, if_false, ih, List.mem_cons]
      rw [flag_test_eq_zero] at h
      constructor
      · rintro ⟨k, hk, hm⟩; exact ⟨k, Or.inr hk, hm⟩
      · rintro ⟨k, hk | hk, hm⟩
        · subst hk; exact absurd hm h
        · exact ⟨k, hk, hm⟩

/-- Scanning the whole argument vector finds a spelling exactly when it occurs in it -/
theorem switch_parser_all (sf lf : String) (argv : List String) :
    switch_parser_fn sf lf argv (argv.length : Int) = true ↔ sf ∈ argv ∨ lf ∈ argv := by
  unfold switch_parser_fn
  rw [switch_parser_loop_true]
  simp only [Int.toNat_ofNat, List.mem_range]
  constructor
  · rintro ⟨i, hi, h | h⟩
    · left; rw [getD_eq_iff argv i hi] at h; exact List.getElem?_mem h
    · right; rw [getD_eq_iff argv i hi] at h; exact List.getElem?_mem h
  · rintro (h | h)
    · obtain ⟨i, hi, rfl⟩ := List.mem_iff_getElem.1 h
      exact ⟨i, hi, Or.inl ((getD_eq_iff argv i hi _).2 (List.getElem?_eq_getElem hi))⟩
    · obtain ⟨i, hi, rfl⟩ := List.mem_iff_getElem.1 h
      exact ⟨i, hi, Or.inr ((getD_eq_iff argv i hi _).2 (List.getElem?_eq_getElem hi))⟩

/-! ## Session bookkeeping: lemmas -/

theorem track_sessions_append (a b : List Event) : ∀ S : Finset Handle,
    track_sessions S (a ++ b) = (track_sessions S a).bind (fun T => track_sessions T b) := by
  induction a with
  | nil => intro S; rfl
  | cons e es ih =>
    intro S
    cases e with
    | opened h => by_cases hm : h ∈ S <;> simp [track_sessions, hm, ih]
    | closed h => by_cases hm : h ∈ S <;> simp [track_sessions, hm, ih]
    | wrote i p => simp [track_sessions, ih]

theorem track_sessions_wrote (ws : List (Int × List Char)) (S : Finset Handle) :
    track_sessions S (ws.map (fun w => Event.wrote w.1 w.2)) = some S := by
  induction ws with
  | nil => rfl
  | cons w ws ih => simpa [track_sessions] using ih

theorem open_set_self (m : Nat) : open_set m m = {Handle.input} := by
  simp [open_set]

theorem open_set_insert (m n : Nat) (h : m ≤ n) :
    insert (Handle.output n) (open_set m n) = open_set m (n + 1) := by
  ext x
  simp only [open_set, Finset.mem_insert, Finset.mem_image, Finset.mem_Ico]
  constructor
  · rintro (rfl | rfl | ⟨a, ha, rfl⟩)
    · exact Or.inr ⟨n, by omega, rfl⟩
    · exact Or.inl rfl
    · exact Or.inr ⟨a, by omega, rfl⟩
  · rintro (rfl | ⟨a, ha, rfl⟩)
    · exact Or.inr (Or.inl rfl)
    · by_cases hn : a = n
      · subst hn; exact Or.inl rfl
      · exact Or.inr (Or.inr ⟨a, by omega, rfl⟩)

theorem output_not_mem (m n k : Nat) (h : k < m ∨ n ≤ k) : Handle.output k ∉ open_set m n := by
  simp only [open_set, Finset.mem_insert, Finset.mem_image, Finset.mem_Ico, not_or]
  refine ⟨by simp, ?_⟩
  rintro ⟨a, ha, hk⟩
  injection hk with hk
  omega

theorem output_mem (m n k : Nat) (h : m ≤ k ∧ k < n) : Handle.output k ∈ open_set m n := by
  simp only [open_set, Finset.mem_insert, Finset.mem_image, Finset.mem_Ico]
  exact Or.inr ⟨k, h, rfl⟩

theorem open_set_erase_last (m n : Nat) :
    (open_set m (n + 1)).erase (Handle.output n) = open_set m n := by
  ext x
  simp only [open_set, Finset.mem_erase, Finset.mem_insert, Finset.mem_image, Finset.mem_Ico]
  constructor
  · rintro ⟨hne, rfl | ⟨a, ha, rfl⟩⟩
    · exact Or.inl rfl
    · refine Or.inr ⟨a, ⟨ha.1, ?_⟩, rfl⟩
      have : a ≠ n := fun h => hne (by rw [h])
      omega
  · rintro (rfl | ⟨a, ha, rfl⟩)
    · exact ⟨by simp, Or.inl rfl⟩
    · refine ⟨?_, Or.inr ⟨a, by omega, rfl⟩⟩
      intro h; injection h with h; omega

theorem open_set_erase_first (m n : Nat) :
    (open_set m n).erase (Handle.output m) = open_set (m + 1) n := by
  ext x
  simp only [open_set, Finset.mem_erase, Finset.mem_insert, Finset.mem_image, Finset.mem_Ico]
  constructor
  · rintro ⟨hne, rfl | ⟨a, ha, rfl⟩⟩
    · exact Or.inl rfl
    · refine Or.inr ⟨a, ⟨?_, ha.2⟩, rfl⟩
      have : a ≠ m := fun h => hne (by rw [h])
      omega
  · rintro (rfl | ⟨a, ha, rfl⟩)
    · exact ⟨by simp, Or.inl rfl⟩
    · refine ⟨?_, Or.inr ⟨a, by omega, rfl⟩⟩
      intro h; injection h with h; omega

/-- Opening the outputs `j, ..., j + len - 1` in ascending order -/
theorem track_opens (len : Nat) : ∀ j : Nat,
    track_sessions (open_set 0 j)
      ((List.range' j len).map (fun i => Event.opened (Handle.output i)))
      = some (open_set 0 (j + len)) := by
  induction len with
  | zero => intro j; rfl
  | succ len ih =>
    intro j
    simp only [List.range'_succ, List.map_cons, track_sessions,
      if_neg (output_not_mem 0 j j (Or.inr (le_refl j))), open_set_insert 0 j (Nat.zero_le j)]
    rw [ih (j + 1)]
    congr 2; omega

/-- Closing the outputs `i - 1, ..., 0` in descending order -/
theorem track_closes_desc (i : Nat) :
    track_sessions (open_set 0 i)
      ((List.range i).reverse.map (fun j => Event.closed (Handle.output j)))
      = some {Handle.input} := by
  induction i with
  | zero => simp [track_sessions, open_set_self]
  | succ i ih =>
    simp only [List.range_succ, List.reverse_append, List.reverse_cons, List.reverse_nil,
      List.nil_append, List.singleton_append, List.map_cons, track_sessions,
      if_pos (output_mem 0 (i + 1) i ⟨Nat.zero_le i, Nat.lt_succ_self i⟩),
      open_set_erase_last]
    exact ih

/-- Closing the outputs `m, ..., m + len - 1` in ascending order -/
theorem track_closes_asc (len : Nat) : ∀ m : Nat,
    track_sessions (open_set m (m + len))
      ((List.range' m len).map (fun j => Event.closed (Handle.output j)))
      = some {Handle.input} := by
  induction len with
  | zero => intro m; simp [track_sessions, open_set_self]
  | succ len ih =>
    intro m
    simp only [List.range'_succ, List.map_cons, track_sessions,
      if_pos (output_mem m (m + (len + 1)) m ⟨le_refl m, by omega⟩), open_set_erase_first]
    have := ih (m + 1)
    rwa [show m + 1 + len = m + (len + 1) by omega] at this

/-! ## The paths of `main` -/

theorem main_help (env : Env) (argv : List String)
    (h1 : switch_parser_fn "-h" "--help" argv (argv.length : Int) = true) :
    main env argv = (Outcome.exit 1, []) := by
  unfold main
  simp only [h1, if_true, PARSE_ERROR_EXIT_CODE]

theorem main_few_args (env : Env) (argv : List String)
    (h2 : ¬ (argv.length : Int) > MIN_CMDARGS + 1) :
    main env argv = (Outcome.exit 1, []) := by
  unfold main
  simp only [h2, if_false, PARSE_ERROR_EXIT_CODE, ite_self]

theorem main_input_fail (env : Env) (argv : List String)
    (h1 : switch_parser_fn "-h" "--help" argv (argv.length : Int) = false)
    (h2 : (argv.length : Int) > MIN_CMDARGS + 1)
    (h3 : file_open env 0 (parse_user_args env argv).inputFastq "r" ≠ 0) :
    main env argv = (Outcome.exit 2, []) := by
  unfold main
  simp only [h1, h2, h3, if_true, FILE_OPEN_ERROR_EXIT_CODE, Bool.false_eq_true, if_false,
    ne_eq, not_false_eq_true]

theorem main_too_many (env : Env) (argv : List String)
    (h1 : switch_parser_fn "-h" "--help" argv (argv.length : Int) = false)
    (h2 : (argv.length : Int) > MIN_CMDARGS + 1)
    (h3 : file_open env 0 (parse_user_args env argv).inputFastq "r" = 0)
    (h4 : ¬ (parse_user_args env argv).nSplits < env.FOPEN_MAX - 1) :
    main env argv
      = (Outcome.exit 3, [Event.opened Handle.input, Event.closed Handle.input]) := by
  unfold main
  simp only [h1, h2, h3, h4, if_true, MAX_SPLITS_REQUEST_ERROR_EXIT_CODE, Bool.false_eq_true,
    if_false, ne_eq, not_true_eq_false]

theorem main_open_fail (env : Env) (argv : List String)
    (h1 : switch_parser_fn "-h" "--help" argv (argv.length : Int) = false)
    (h2 : (argv.length : Int) > MIN_CMDARGS + 1)
    (h3 : file_open env 0 (parse_user_args env argv).inputFastq "r" = 0)
    (h4 : (parse_user_args env argv).nSplits < env.FOPEN_MAX - 1)
    (evs : List Event)
    (h5 : open_outputs env (parse_user_args env argv)
      (List.range (parse_user_args env argv).nSplits.toNat) = Except.error evs) :
    main env argv = (Outcome.exit 2, Event.opened Handle.input :: evs) := by
  unfold main
  simp only [h1, h2, h3, h4, h5, if_true, FILE_OPEN_ERROR_EXIT_CODE, Bool.false_eq_true,
    if_false, ne_eq, not_true_eq_false]

theorem main_copy_fault (env : Env) (argv : List String)
    (h1 : switch_parser_fn "-h" "--help" argv (argv.length : Int) = false)
    (h2 : (argv.length : Int) > MIN_CMDARGS + 1)
    (h3 : file_open env 0 (parse_user_args env argv).inputFastq "r" = 0)
    (h4 : (parse_user_args env argv).nSplits < env.FOPEN_MAX - 1)
    (evs : List Event)
    (h5 : open_outputs env (parse_user_args env argv)
      (List.range (parse_user_args env argv).nSplits.toNat) = Except.ok evs)
    (f : Fault)
    (h6 : (copy_loop (parse_user_args env argv).nSplits (parse_user_args env argv).bufferRecs
      LoopState.init (fgets_stream INPUT_BUFFER_SIZE env.input)).2 = some f) :
    main env argv =
      (Outcome.fault f,
        Event.opened Handle.input :: (evs ++
          (copy_loop (parse_user_args env argv).nSplits (parse_user_args env argv).bufferRecs
            LoopState.init (fgets_stream INPUT_BUFFER_SIZE env.input)).1.map
              (fun w => Event.wrote w.1 w.2))) := by
  unfold main
  simp only [h1, h2, h3, h4, h5, h6, if_true, Bool.false_eq_true,
    if_false, ne_eq, not_true_eq_false]

theorem main_copy_done (env : Env) (argv : List String)
    (h1 : switch_parser_fn "-h" "--help" argv (argv.length : Int) = false)
    (h2 : (argv.length : Int) > MIN_CMDARGS + 1)
    (h3 : file_open env 0 (parse_user_args env argv).inputFastq "r" = 0)
    (h4 : (parse_user_args env argv).nSplits < env.FOPEN_MAX - 1)
    (evs : List Event)
    (h5 : open_outputs env (parse_user_args env argv)
      (List.range (parse_user_args env argv).nSplits.toNat) = Except.ok evs)
    (h6 : (copy_loop (parse_user_args env argv).nSplits (parse_user_args env argv).bufferRecs
      LoopState.init (fgets_stream INPUT_BUFFER_SIZE env.input)).2 = none) :
    main env argv =
      (Outcome.exit 0,
        Event.opened Handle.input :: (evs ++
          (copy_loop (parse_user_args env argv).nSplits (parse_user_args env argv).bufferRecs
            LoopState.init (fgets_stream INPUT_BUFFER_SIZE env.input)).1.map
              (fun w => Event.wrote w.1 w.2)
          ++ (List.range (parse_user_args env argv).nSplits.toNat).map
              (fun i => Event.closed (Handle.output i))
          ++ [Event.closed Handle.input])) := by
  unfold main
  simp only [h1, h2, h3, h4, h5, h6, if_true, Bool.false_eq_true,
    if_false, ne_eq, not_true_eq_false]

theorem open_outputs_all (env : Env) (uargs : UserArgs) (is : List Nat)
    (h : ∀ i ∈ is, file_open env (i + 1) (build_outpath uargs ((i : Int) + 1)) "w" = 0) :
    open_outputs env uargs is
      = Except.ok (is.map (fun i => Event.opened (Handle.output i))) := by
  induction is with
  | nil => rfl
  | cons i is ih =>
    have hi := h i (List.mem_cons_self _ _)
    simp only [open_outputs, hi, ne_eq, not_true_eq_false, if_false,
      ih (fun k hk => h k (List.mem_cons_of_mem _ hk)), List.map_cons]

theorem open_outputs_first_fail (env : Env) (uargs : UserArgs) (pre post : List Nat) (i : Nat)
    (h : ∀ k ∈ pre, file_open env (k + 1) (build_outpath uargs ((k : Int) + 1)) "w" = 0)
    (hi : file_open env (i + 1) (build_outpath uargs ((i : Int) + 1)) "w" ≠ 0) :
    open_outputs env uargs (pre ++ i :: post)
      = Except.error (pre.map (fun k => Event.opened (Handle.output k))
          ++ ((List.range i).reverse.map (fun j => Event.closed (Handle.output j))
          ++ [Event.closed Handle.input])) := by
  induction pre with
  | nil => simp only [List.nil_append, open_outputs, hi, ne_eq, not_false_eq_true, if_true,
      List.map_nil]
  | cons k ks ih =>
    have hk := h k (List.mem_cons_self _ _)
    have ih' := ih (fun j hj => h j (List.mem_cons_of_mem _ hj))
    rw [List.cons_append, open_outputs]
    simp only [hk, ne_eq, not_true_eq_false, if_false, ih', List.map_cons, List.cons_append]

/-- The opening loop over `j, ..., j + len - 1` either opens them all or stops at the first
index whose open fails -/
theorem open_outputs_range (env : Env) (uargs : UserArgs) (len : Nat) : ∀ j : Nat,
    open_outputs env uargs (List.range' j len)
        = Except.ok ((List.range' j len).map (fun i => Event.opened (Handle.output i))) ∨
    ∃ d : Nat, d < len ∧
      open_outputs env uargs (List.range' j len)
        = Except.error ((List.range' j d).map (fun k => Event.opened (Handle.output k))
          ++ ((List.range (j + d)).reverse.map (fun k => Event.closed (Handle.output k))
          ++ [Event.closed Handle.input])) := by
  induction len with
  | zero => intro j; left; rfl
  | succ len ih =>
    intro j
    by_cases hj : file_open env (j + 1) (build_outpath uargs ((j : Int) + 1)) "w" = 0
    · rcases ih (j + 1) with hok | ⟨d, hd, herr⟩
      · left
        simp only [List.range'_succ, open_outputs, hj, ne_eq, not_true_eq_false, if_false, hok,
          List.map_cons]
      · right
        refine ⟨d + 1, by omega, ?_⟩
        simp only [List.range'_succ, open_outputs, hj, ne_eq, not_true_eq_false, if_false, herr,
          List.map_cons, List.cons_append]
        rw [show j + 1 + d = j + (d + 1) by omega]
    · right
      refine ⟨0, by omega, ?_⟩
      simp only [List.range'_succ, open_outputs, hj, ne_eq, not_false_eq_true, if_true,
        List.range'_zero, List.map_nil, List.nil_append, Nat.add_zero]

theorem sessions_paired_unwind (d : Nat) :
    sessions_paired (Event.opened Handle.input ::
      ((List.range' 0 d).map (fun k => Event.opened (Handle.output k))
        ++ ((List.range (0 + d)).reverse.map (fun k => Event.closed (Handle.output k))
        ++ [Event.closed Handle.input]))) := by
  unfold sessions_paired
  have h0 : insert Handle.input (∅ : Finset Handle) = open_set 0 0 := by
    simp [open_set]
  simp only [track_sessions, Finset.not_mem_empty, if_false, h0, track_sessions_append,
    track_opens d 0, Option.some_bind, track_closes_desc, Finset.mem_singleton, if_true,
    Finset.erase_singleton]

theorem sessions_paired_run (n : Nat) (ws : List (Int × List Char)) :
    sessions_paired (Event.opened Handle.input ::
      ((List.range' 0 n).map (fun k => Event.opened (Handle.output k))
        ++ ws.map (fun w => Event.wrote w.1 w.2)
        ++ (List.range n).map (fun i => Event.closed (Handle.output i))
        ++ [Event.closed Handle.input])) := by
  unfold sessions_paired
  have h0 : insert Handle.input (∅ : Finset Handle) = open_set 0 0 := by
    simp [open_set]
  have hc := track_closes_asc n 0
  rw [Nat.zero_add] at hc
  simp only [track_sessions, Finset.not_mem_empty, if_false, h0, track_sessions_append,
    track_opens n 0, Option.some_bind, track_sessions_wrote, List.range_eq_range', hc,
    Finset.mem_singleton, if_true, Finset.erase_singleton, Nat.zero_add, Option.bind_some]

/-! ## Output paths: lemmas -/

theorem build_outpath_eq (uargs : UserArgs) (splitidx : Int) :
    build_outpath uargs splitidx
      = uargs.outputDir ++ "/" ++ fmt_d splitidx ++ "-of-" ++ fmt_d uargs.nSplits ++ "."
          ++ uargs.outputBase ++ ".fastq" := by
  apply String.ext
  simp [build_outpath, sprintf, sprintf_chars, String.data_append]

theorem digit_value_digitChar (k : Nat) (h : k < 10) : digit_value (Nat.digitChar k) = k := by
  interval_cases k <;> rfl

theorem decode_toDigitsCore (fuel : Nat) : ∀ (n : Nat) (ds : List Char), n < fuel →
    decode_digits 0 (Nat.toDigitsCore 10 fuel n ds) = decode_digits n ds := by
  induction fuel with
  | zero => intro n ds h; omega
  | succ fuel ih =>
    intro n ds h
    have hd := digit_value_digitChar (n % 10) (Nat.mod_lt _ (by decide))
    unfold Nat.toDigitsCore
    by_cases h0 : n / 10 = 0
    · simp only [h0, if_true]
      simp only [decode_digits, List.foldl_cons, hd]
      congr 1; omega
    · simp only [h0, if_false]
      rw [ih (n / 10) _ (by omega)]
      simp only [decode_digits, List.foldl_cons, hd]
      congr 1; omega

theorem decode_repr (n : Nat) : decode_digits 0 (Nat.repr n).data = n := by
  simp only [Nat.repr, Nat.toDigits, List.asString]
  rw [decode_toDigitsCore (n + 1) n [] (by omega)]
  rfl

theorem fmt_d_injective (i j : Int) (hi : 0 ≤ i) (hj : 0 ≤ j) (h : fmt_d i = fmt_d j) :
    i = j := by
  unfold fmt_d at h
  rw [if_neg (by omega), if_neg (by omega)] at h
  have := congrArg (fun s => decode_digits 0 s.data) h
  simp only [decode_repr] at this
  omega

theorem build_outpath_injective (uargs : UserArgs) (i j : Int) (hi : 1 ≤ i) (hj : 1 ≤ j)
    (h : build_outpath uargs i = build_outpath uargs j) : i = j := by
  rw [build_outpath_eq, build_outpath_eq] at h
  have hd := congrArg String.data h
  simp only [String.data_append, List.append_assoc] at hd
  have h1 := List.append_cancel_left hd
  have h2 := List.append_cancel_left h1
  rw [← List.append_assoc, ← List.append_assoc (fmt_d j).data] at h2
  have h3 := List.append_cancel_right h2
  have h4 := List.append_cancel_right h3
  exact fmt_d_injective i j (by omega) (by omega) (String.ext h4)

/-! ## Reading the input: lemmas -/

theorem fgets_take_spec (room : Nat) : ∀ s : List Char,
    (fgets_take room s).1 ++ (fgets_take room s).2 = s ∧
    (fgets_take room s).1.length ≤ room ∧
    (0 < room → s ≠ [] → (fgets_take room s).1 ≠ []) ∧
    ((fgets_take room s).1.getLast? = some '\n' ∨ (fgets_take room s).1.length = room
      ∨ (fgets_take room s).2 = []) := by
  induction room with
  | zero => intro s; simp [fgets_take]
  | succ room ih =>
    intro s
    cases s with
    | nil => simp [fgets_take]
    | cons c s =>
      by_cases hc : c = '\n'
      · simp [fgets_take, hc]
      · obtain ⟨h1, h2, _, h4⟩ := ih s
        simp only [fgets_take, hc, if_false]
        refine ⟨by simp [h1], by simp; omega, by simp, ?_⟩
        rcases h4 with h | h | h
        · left
          cases hp : (fgets_take room s).1 with
          | nil => rw [hp] at h; simp at h
          | cons d ds => rw [hp] at h; simpa using h
        · right; left; simp [h]
        · right; right; exact h

theorem fgets_loop_fuel (size : Nat) (hsize : 2 ≤ size) (fuel1 : Nat) :
    ∀ (fuel2 : Nat) (s : List Char), s.length ≤ fuel1 → s.length ≤ fuel2 →
      fgets_loop size fuel1 s = fgets_loop size fuel2 s := by
  induction fuel1 with
  | zero =>
    intro fuel2 s h1 _
    have : s = [] := List.length_eq_zero.1 (by omega)
    subst this
    cases fuel2 <;> simp [fgets_loop, fgets]
  | succ fuel1 ih =>
    intro fuel2 s h1 h2
    cases s with
    | nil => cases fuel2 <;> simp [fgets_loop, fgets]
    | cons c s =>
      cases fuel2 with
      | zero => simp at h2
      | succ fuel2 =>
        obtain ⟨e1, _, e3, _⟩ := fgets_take_spec (size - 1) (c :: s)
        have hne := e3 (by omega) (by simp)
        have hlen : ((fgets_take (size - 1) (c :: s)).1 ++ (fgets_take (size - 1) (c :: s)).2).length
            = (c :: s).length := by rw [e1]
        have hpos : 0 < (fgets_take (size - 1) (c :: s)).1.length :=
          List.length_pos.2 hne
        simp only [List.length_append, List.length_cons] at hlen h1 h2
        simp only [fgets_loop, fgets]
        rw [ih fuel2 _ (by omega) (by omega)]

theorem fgets_stream_nil (size : Nat) : fgets_stream size [] = [] := by
  simp [fgets_stream, fgets_loop]

theorem fgets_stream_cons (size : Nat) (hsize : 2 ≤ size) (s : List Char) (hs : s ≠ []) :
    fgets_stream size s
      = (fgets_take (size - 1) s).1 :: fgets_stream size (fgets_take (size - 1) s).2 := by
  cases s with
  | nil => exact absurd rfl hs
  | cons c s =>
    obtain ⟨e1, _, e3, _⟩ := fgets_take_spec (size - 1) (c :: s)
    have hne := e3 (by omega) (by simp)
    have hlen : ((fgets_take (size - 1) (c :: s)).1 ++ (fgets_take (size - 1) (c :: s)).2).length
        = (c :: s).length := by rw [e1]
    have hpos : 0 < (fgets_take (size - 1) (c :: s)).1.length := List.length_pos.2 hne
    simp only [List.length_append, List.length_cons] at hlen
    unfold fgets_stream
    simp only [List.length_cons, fgets_loop, fgets]
    rw [fgets_loop_fuel size hsize s.length _ _ (by omega) (le_refl _)]

theorem fgets_stream_spec (size : Nat) (hsize : 2 ≤ size) (n : Nat) :
    ∀ s : List Char, s.length ≤ n →
      (fgets_stream size s).flatten = s ∧
      ∀ p ∈ fgets_stream size s, 1 ≤ p.length ∧ p.length ≤ size - 1 ∧
        (p.getLast? = some '\n' ∨ p.length = size - 1 ∨ p.getLast? = s.getLast?) := by
  induction n with
  | zero =>
    intro s h
    have : s = [] := List.length_eq_zero.1 (by omega)
    subst this
    simp [fgets_stream_nil]
  | succ n ih =>
    intro s h
    by_cases hs : s = []
    · subst hs; simp [fgets_stream_nil]
    · obtain ⟨e1, e2, e3, e4⟩ := fgets_take_spec (size - 1) s
      have hne := e3 (by omega) hs
      have hpos : 0 < (fgets_take (size - 1) s).1.length := List.length_pos.2 hne
      have hlen : ((fgets_take (size - 1) s).1 ++ (fgets_take (size - 1) s).2).length
          = s.length := by rw [e1]
      simp only [List.length_append] at hlen
      obtain ⟨i1, i2⟩ := ih (fgets_take (size - 1) s).2 (by omega)
      rw [fgets_stream_cons size hsize s hs]
      refine ⟨by simp [i1, e1], ?_⟩
      intro p hp
      rcases List.mem_cons.1 hp with rfl | hp
      · refine ⟨hpos, e2, ?_⟩
        rcases e4 with h | h | h
        · exact Or.inl h
        · exact Or.inr (Or.inl h)
        · right; right
          rw [h, List.append_nil] at e1
          rw [e1]
      · obtain ⟨j1, j2, j3⟩ := i2 p hp
        refine ⟨j1, j2, ?_⟩
        rcases j3 with h | h | h
        · exact Or.inl h
        · exact Or.inr (Or.inl h)
        · right; right
          have hr : (fgets_take (size - 1) s).2 ≠ [] := by
            intro hr; rw [hr, fgets_stream_nil] at hp; simp at hp
          rw [h]
          conv_rhs => rw [← e1]
          rw [List.getLast?_append]
          cases hl : (fgets_take (size - 1) s).2.getLast? with
          | none => exact absurd (List.getLast?_eq_none_iff.1 hl) hr
          | some x => simp

/-- A full buffer: `room` characters other than newline are taken and the rest is left -/
theorem fgets_take_replicate (c : Char) (hc : c ≠ '\n') (room : Nat) (rest : List Char) :
    fgets_take room (List.replicate room c ++ rest) = (List.replicate room c, rest) := by
  induction room with
  | zero => simp [fgets_take]
  | succ room ih =>
    rw [List.replicate_succ, List.cons_append, fgets_take, if_neg hc, ih]

/-- A line that fits: everything up to and including the newline is taken -/
theorem fgets_take_line (body rest : List Char) (hb : ∀ c ∈ body, c ≠ '\n') :
    ∀ room : Nat, body.length < room →
      fgets_take room (body ++ '\n' :: rest) = (body ++ ['\n'], rest) := by
  induction body with
  | nil =>
    intro room h
    cases room with
    | zero => simp at h
    | succ room => simp [fgets_take]
  | cons b bs ih =>
    intro room h
    cases room with
    | zero => simp at h
    | succ room =>
      have hne : b ≠ '\n' := hb b (List.mem_cons_self _ _)
      have := ih (fun c hc => hb c (List.mem_cons_of_mem _ hc)) room (by simpa using h)
      rw [List.cons_append, fgets_take, if_neg hne, this]
      rfl

theorem copy_loop_five (p1 p2 p3 p4 p5 : List Char) :
    copy_loop 2 1 LoopState.init [p1, p2, p3, p4, p5]
      = ([(0, fputs_str p1), (0, fputs_str p2), (0, fputs_str p3), (0, fputs_str p4),
          (1, fputs_str p5)], none) := by
  rfl

theorem fgets_stream_long_record :
    fgets_stream INPUT_BUFFER_SIZE long_record
      = [['@', 'r', '\n'], List.replicate 3199 'A', ['A', '\n'], ['+', '\n'], ['I', '\n']] := by
  have hA : ('A' : Char) ≠ '\n' := by decide
  have e1 := fgets_take_line ['@', 'r']
    (List.replicate 3199 'A' ++ ('A' :: '\n' :: '+' :: '\n' :: 'I' :: '\n' :: []))
    (by decide) 3199 (by decide)
  have e2 := fgets_take_replicate 'A' hA 3199 ('A' :: '\n' :: '+' :: '\n' :: 'I' :: '\n' :: [])
  have e3 := fgets_take_line ['A'] ('+' :: '\n' :: 'I' :: '\n' :: []) (by decide) 3199 (by decide)
  have e4 := fgets_take_line ['+'] ('I' :: '\n' :: []) (by decide) 3199 (by decide)
  have e5 := fgets_take_line ['I'] [] (by decide) 3199 (by decide)
  have hrec : long_record = ['@', 'r'] ++ '\n' ::
      (List.replicate 3199 'A' ++ ('A' :: '\n' :: '+' :: '\n' :: 'I' :: '\n' :: [])) := by
    unfold long_record long_line
    rw [show (3200 : Nat) = 3199 + 1 from rfl, List.replicate_succ']
    simp only [List.append_assoc, List.cons_append, List.nil_append]
  have hsz : INPUT_BUFFER_SIZE - 1 = 3199 := by decide
  have h2 : 2 ≤ INPUT_BUFFER_SIZE := by decide
  rw [hrec, fgets_stream_cons _ h2 _ (List.append_ne_nil_of_right_ne_nil _ (List.cons_ne_nil _ _)),
    hsz, e1]
  simp only []
  rw [fgets_stream_cons _ h2 _ (List.append_ne_nil_of_right_ne_nil _ (List.cons_ne_nil _ _)),
    hsz, e2]
  simp only []
  rw [fgets_stream_cons _ h2 ('A' :: '\n' :: '+' :: '\n' :: 'I' :: '\n' :: []) (List.cons_ne_nil _ _), hsz]
  rw [show ('A' :: '\n' :: '+' :: '\n' :: 'I' :: '\n' :: []) = ['A'] ++ '\n' :: ('+' :: '\n' :: 'I' :: '\n' :: []) from rfl, e3]
  simp only []
  rw [fgets_stream_cons _ h2 ('+' :: '\n' :: 'I' :: '\n' :: []) (List.cons_ne_nil _ _), hsz]
  rw [show ('+' :: '\n' :: 'I' :: '\n' :: []) = ['+'] ++ '\n' :: ('I' :: '\n' :: []) from rfl, e4]
  simp only []
  rw [fgets_stream_cons _ h2 ('I' :: '\n' :: []) (List.cons_ne_nil _ _), hsz]
  rw [show ('I' :: '\n' :: []) = ['I'] ++ '\n' :: [] from rfl, e5]
  simp only []
  rw [fgets_stream_nil]
  rfl

/-! ## Lines that fit the buffer: lemmas -/

/-- A buffer content without NUL is written whole -/
theorem fputs_str_eq_self (l : List Char) (h : ∀ c ∈ l, c ≠ NUL) : fputs_str l = l := by
  unfold fputs_str
  rw [List.takeWhile_eq_self_iff]
  intro c hc
  simpa using h c hc

theorem map_fputs_str_eq_self (L : List (List Char)) (h : no_nul L = true) :
    L.map fputs_str = L := by
  unfold no_nul at h
  rw [List.all_eq_true] at h
  conv_rhs => rw [← List.map_id L]
  apply List.map_congr_left
  intro l hl
  have hl' := h l hl
  rw [List.all_eq_true] at hl'
  exact fputs_str_eq_self l (fun c hc => by simpa using hl' c hc)

theorem fgets_take_nil (room : Nat) : fgets_take room [] = ([], []) := by
  cases room <;> rfl

/-- A line that fits the buffer is read whole, when it ends with a newline or the input ends
with it -/
theorem fgets_take_fit : ∀ (l : List Char) (room : Nat) (rest : List Char),
    l ≠ [] → l.length ≤ room → (∀ c ∈ l.dropLast, c ≠ '\n') →
    (l.getLast? = some '\n' ∨ rest = []) →
    fgets_take room (l ++ rest) = (l, rest)
  | [], _, _, h, _, _, _ => absurd rfl h
  | [c], room, rest, _, hlen, _, hend => by
    cases room with
    | zero => simp at hlen
    | succ room =>
      by_cases hc : c = '\n'
      · subst hc; simp [fgets_take]
      · have hr : rest = [] := by
          rcases hend with h | h
          · simp at h; exact absurd h hc
          · exact h
        subst hr
        simp [fgets_take, hc, fgets_take_nil]
  | c :: d :: t, room, rest, _, hlen, hbody, hend => by
    cases room with
    | zero => simp at hlen
    | succ room =>
      have hc : c ≠ '\n' := hbody c (by simp [List.dropLast])
      have ih := fgets_take_fit (d :: t) room rest (by simp)
        (by simpa using hlen)
        (fun x hx => hbody x (by simp only [List.dropLast_cons₂]; exact List.mem_cons_of_mem _ hx))
        (by simpa using hend)
      rw [List.cons_append, fgets_take, if_neg hc, ih]

theorem fits_buffer_iff (size : Nat) (l : List Char) :
    fits_buffer size l = true ↔
      l ≠ [] ∧ l.length ≤ size - 1 ∧ ∀ c ∈ l.dropLast, c ≠ '\n' := by
  unfold fits_buffer
  simp [List.all_eq_true, and_assoc]

theorem fgets_stream_fit_cons (size : Nat) (hsize : 2 ≤ size) (l rest : List Char)
    (hl : fits_buffer size l = true) (hend : l.getLast? = some '\n' ∨ rest = []) :
    fgets_stream size (l ++ rest) = l :: fgets_stream size rest := by
  obtain ⟨h1, h2, h3⟩ := (fits_buffer_iff size l).1 hl
  rw [fgets_stream_cons size hsize _ (List.append_ne_nil_of_left_ne_nil h1 _),
    fgets_take_fit l (size - 1) rest h1 h2 h3 hend]

theorem fgets_stream_full_cons (c : Char) (hc : c ≠ '\n') (rest : List Char) :
    fgets_stream INPUT_BUFFER_SIZE (List.replicate 3199 c ++ rest)
      = List.replicate 3199 c :: fgets_stream INPUT_BUFFER_SIZE rest := by
  have hne : List.replicate 3199 c ++ rest ≠ [] := by
    rw [show (3199 : Nat) = 3198 + 1 from rfl, List.replicate_succ, List.cons_append]
    exact List.cons_ne_nil _ _
  rw [fgets_stream_cons INPUT_BUFFER_SIZE (by decide) _ hne,
    show INPUT_BUFFER_SIZE - 1 = 3199 from by decide, fgets_take_replicate c hc 3199 rest]

/-- Lines that fit the buffer are read back one per call of `fgets` -/
theorem fgets_stream_lines (size : Nat) (hsize : 2 ≤ size) : ∀ L : List (List Char),
    lines_fit size L = true → fgets_stream size L.flatten = L
  | [], _ => by simp [fgets_stream_nil]
  | [l], h => by
    have hl : fits_buffer size l = true := by simpa [lines_fit] using h
    have := fgets_stream_fit_cons size hsize l [] hl (Or.inr rfl)
    simpa [fgets_stream_nil] using this
  | l :: m :: rest, h => by
    have h' : (fits_buffer size l = true ∧ l.getLast? = some '\n')
        ∧ lines_fit size (m :: rest) = true := by
      simpa [lines_fit] using h
    have ih := fgets_stream_lines size hsize (m :: rest) h'.2
    rw [List.flatten_cons, fgets_stream_fit_cons size hsize l _ h'.1.1 (Or.inl h'.1.2), ih]

/-- A run whose arguments parse, whose input and outputs all open and whose copy loop ends
without fault: the complete list of events -/
theorem main_success (env : Env) (argv : List String)
    (hh1 : "-h" ∉ argv) (hh2 : "--help" ∉ argv) (hlen : 3 < argv.length)
    (h3 : file_open env 0 (parse_user_args env argv).inputFastq "r" = 0)
    (h4 : (parse_user_args env argv).nSplits < env.FOPEN_MAX - 1)
    (hout : ∀ i : Nat, (i : Int) < (parse_user_args env argv).nSplits →
      file_open env (i + 1) (build_outpath (parse_user_args env argv) ((i : Int) + 1)) "w" = 0)
    (h6 : (copy_loop (parse_user_args env argv).nSplits (parse_user_args env argv).bufferRecs
      LoopState.init (fgets_stream INPUT_BUFFER_SIZE env.input)).2 = none) :
    main env argv =
      (Outcome.exit 0,
        Event.opened Handle.input ::
          ((List.range (parse_user_args env argv).nSplits.toNat).map
              (fun i => Event.opened (Handle.output i))
            ++ (copy_loop (parse_user_args env argv).nSplits
                (parse_user_args env argv).bufferRecs LoopState.init
                (fgets_stream INPUT_BUFFER_SIZE env.input)).1.map
                  (fun w => Event.wrote w.1 w.2)
            ++ (List.range (parse_user_args env argv).nSplits.toNat).map
                (fun i => Event.closed (Handle.output i))
            ++ [Event.closed Handle.input])) := by
  have hsw := switch_parser_all "-h" "--help" argv
  have h1 : switch_parser_fn "-h" "--help" argv (argv.length : Int) = false := by
    cases hs : switch_parser_fn "-h" "--help" argv (argv.length : Int) with
    | false => rfl
    | true =>
      rcases hsw.1 hs with h | h
      · exact absurd h hh1
      · exact absurd h hh2
  have h2 : (argv.length : Int) > MIN_CMDARGS + 1 := by unfold MIN_CMDARGS; omega
  have h5 := open_outputs_all env (parse_user_args env argv)
    (List.range (parse_user_args env argv).nSplits.toNat)
    (fun i hi => hout i (by have := List.mem_range.1 hi; omega))
  exact main_copy_done env argv h1 h2 h3 h4 _ h5 h6

theorem is_line_replicate (c : Char) (hc : c ≠ '\n') (k : Nat) :
    is_line (List.replicate k c ++ ['\n']) = true := by
  unfold is_line
  rw [List.dropLast_concat]
  simp only [List.getLast?_append, List.getLast?_singleton, Option.or_some, decide_True,
    Bool.true_and, List.all_eq_true]
  intro x hx
  rw [List.eq_of_mem_replicate hx]
  simpa using hc

theorem fputs_str_replicate (c : Char) (hc : c ≠ NUL) (k : Nat) :
    fputs_str (List.replicate k c) = List.replicate k c :=
  fputs_str_eq_self _ (fun x hx => by rw [List.eq_of_mem_replicate hx]; exact hc)

/-- A line of 3200 characters and its newline is read in two pieces -/
theorem fgets_stream_long (c : Char) (hc : c ≠ '\n') (rest : List Char) :
    fgets_stream INPUT_BUFFER_SIZE ((List.replicate 3200 c ++ ['\n']) ++ rest)
      = List.replicate 3199 c :: [c, '\n'] :: fgets_stream INPUT_BUFFER_SIZE rest := by
  have hsplit : (List.replicate 3200 c ++ ['\n']) ++ rest
      = List.replicate 3199 c ++ ([c, '\n'] ++ rest) := by
    rw [show (3200 : Nat) = 3199 + 1 from rfl, List.replicate_succ']
    simp only [List.append_assoc, List.cons_append, List.nil_append]
  have hfit : fits_buffer INPUT_BUFFER_SIZE [c, '\n'] = true := by
    rw [fits_buffer_iff]
    refine ⟨by simp, by simp [INPUT_BUFFER_SIZE], ?_⟩
    intro x hx
    have : x = c := by simpa [List.dropLast] using hx
    rw [this]; exact hc
  rw [hsplit, fgets_stream_full_cons c hc,
    fgets_stream_fit_cons INPUT_BUFFER_SIZE (by decide) [c, '\n'] rest hfit (Or.inl rfl)]

theorem fgets_stream_long_record_lines :
    fgets_stream INPUT_BUFFER_SIZE
        [['@', 'r', '\n'], long_line, ['+', '\n'], ['I', '\n']].flatten
      = [['@', 'r', '\n'], List.replicate 3199 'A', ['A', '\n'], ['+', '\n'], ['I', '\n']] := by
  have h2 : 2 ≤ INPUT_BUFFER_SIZE := by decide
  simp only [List.flatten_cons, List.flatten_nil, long_line]
  rw [fgets_stream_fit_cons _ h2 ['@', 'r', '\n'] _ (by decide) (Or.inl rfl),
    fgets_stream_long 'A' (by decide),
    fgets_stream_fit_cons _ h2 ['+', '\n'] _ (by decide) (Or.inl rfl),
    fgets_stream_fit_cons _ h2 ['I', '\n'] _ (by decide) (Or.inl rfl), fgets_stream_nil]

theorem fgets_stream_long_qual_lines :
    fgets_stream INPUT_BUFFER_SIZE
        [['@', 'r', '\n'], ['A', 'C', '\n'], ['+', '\n'], long_qual].flatten
      = [['@', 'r', '\n'], ['A', 'C', '\n'], ['+', '\n'], List.replicate 3199 'I',
          ['I', '\n']] := by
  have h2 : 2 ≤ INPUT_BUFFER_SIZE := by decide
  simp only [List.flatten_cons, List.flatten_nil, long_qual]
  rw [fgets_stream_fit_cons _ h2 ['@', 'r', '\n'] _ (by decide) (Or.inl rfl),
    fgets_stream_fit_cons _ h2 ['A', 'C', '\n'] _ (by decide) (Or.inl rfl),
    fgets_stream_fit_cons _ h2 ['+', '\n'] _ (by decide) (Or.inl rfl),
    fgets_stream_long 'I' (by decide), fgets_stream_nil]

/-- Five buffer contents without NUL, two outputs, one record per turn -/
theorem copy_loop_five_text (p1 p2 p3 p4 p5 : List Char)
    (h1 : ∀ c ∈ p1, c ≠ NUL) (h2 : ∀ c ∈ p2, c ≠ NUL) (h3 : ∀ c ∈ p3, c ≠ NUL)
    (h4 : ∀ c ∈ p4, c ≠ NUL) (h5 : ∀ c ∈ p5, c ≠ NUL) :
    copy_loop 2 1 LoopState.init [p1, p2, p3, p4, p5]
      = ([(0, p1), (0, p2), (0, p3), (0, p4), (1, p5)], none) := by
  rw [copy_loop_five, fputs_str_eq_self p1 h1, fputs_str_eq_self p2 h2,
    fputs_str_eq_self p3 h3, fputs_str_eq_self p4 h4, fputs_str_eq_self p5 h5]

theorem replicate_no_nul (c : Char) (hc : c ≠ NUL) (k : Nat) :
    ∀ x ∈ List.replicate k c, x ≠ NUL :=
  fun x hx => by rw [List.eq_of_mem_replicate hx]; exact hc

/-- The content of output 0 after four writes to it and one write to output 1 -/
theorem shard_five (a b c d e : List Char) :
    shard [((0 : Int), a), (0, b), (0, c), (0, d), (1, e)] 0 = [a, b, c, d] := by
  rfl

/-! ## The claims -/

/-- C1 (amended).  Round-robin assignment of the copy loop in `main`.  Let the input be made
of the lines `L`, each of at most `INPUT_BUFFER_SIZE - 1 = 3199` characters, its newline
included (every line but the last ends with its newline).  Then `fgets` reads the input back
line by line, and for `nSplits = n ≥ 1` and `bufferRecs = b ≥ 1` (both in the range of a C
`int`) the copy loop ends without fault and makes one write per line: the write at 0-based
position `k` carries line `k` (what `fputs` writes of it) to the output of index
`(k / (4 * b)) % n`.  A run of `main` on such an input whose arguments parse, whose split
count passes the limit check and whose files all open, ends with status 0 after exactly these
writes, between the opens and the closes. -/
theorem main_round_robin (n b : Int) (hn : 1 ≤ n) (hn' : n ≤ INT_MAX) (hb : 1 ≤ b)
    (hb' : b ≤ INT_MAX) (L : List (List Char)) (hL : lines_fit INPUT_BUFFER_SIZE L = true) :
    fgets_stream INPUT_BUFFER_SIZE L.flatten = L ∧
    (copy_loop n b LoopState.init (fgets_stream INPUT_BUFFER_SIZE L.flatten)).2 = none ∧
    (copy_loop n b LoopState.init (fgets_stream INPUT_BUFFER_SIZE L.flatten)).1.length
      = L.length ∧
    (∀ (k : Nat) (hk : k < L.length),
      (copy_loop n b LoopState.init (fgets_stream INPUT_BUFFER_SIZE L.flatten)).1[k]?
        = some (((k : Int) / (4 * b)) % n, fputs_str L[k])) ∧
    (∀ (env : Env) (argv : List String),
      "-h" ∉ argv → "--help" ∉ argv → 3 < argv.length →
      (parse_user_args env argv).nSplits = n → (parse_user_args env argv).bufferRecs = b →
      n < env.FOPEN_MAX - 1 → env.input = L.flatten →
      file_open env 0 (parse_user_args env argv).inputFastq "r" = 0 →
      (∀ i : Nat, (i : Int) < n →
        file_open env (i + 1) (build_outpath (parse_user_args env argv) ((i : Int) + 1)) "w"
          = 0) →
      main env argv =
        (Outcome.exit 0,
          Event.opened Handle.input ::
            ((List.range n.toNat).map (fun i => Event.opened (Handle.output i))
              ++ L.enum.map
                  (fun kl => Event.wrote (((kl.1 : Int) / (4 * b)) % n) (fputs_str kl.2))
              ++ (List.range n.toNat).map (fun i => Event.closed (Handle.output i))
              ++ [Event.closed Handle.input]))) := by
  have hinit : LoopInv n b 0 LoopState.init := by
    simp [LoopInv, LoopState.init, wrap32]
  have hread := fgets_stream_lines INPUT_BUFFER_SIZE (by decide) L hL
  have hloop := copy_loop_inv n b hn hn' hb hb' L 0 LoopState.init hinit
  rw [hread, hloop]
  refine ⟨rfl, rfl, by simp, ?_, ?_⟩
  · intro k hk
    simp [List.getElem?_enumFrom, List.getElem?_eq_getElem hk]
  · intro env argv hh1 hh2 hlen hN hB hlim hin h3 hout
    have hrun : copy_loop (parse_user_args env argv).nSplits
        (parse_user_args env argv).bufferRecs LoopState.init
        (fgets_stream INPUT_BUFFER_SIZE env.input)
        = ((L.enumFrom 0).map
            (fun kl => (((kl.1 : Int) / (4 * b)) % n, fputs_str kl.2)), none) := by
      rw [hN, hB, hin, hread, hloop]
    have h6 := congrArg Prod.snd hrun
    have h7 := congrArg Prod.fst hrun
    simp only at h6 h7
    have hmain := main_success env argv hh1 hh2 hlen h3 (by rw [hN]; exact hlim)
      (fun i hi => hout i (by rw [← hN]; exact hi)) h6
    rw [hmain, h7, hN]
    simp [List.enum, List.map_map, Function.comp_def]

/-- Instance of C1: two outputs and one record per turn.  Of the eight lines of `sample_lines`
the one at position 5 goes to the output of index 1; and the run of `sample_env` on its
one-record input with `-n 2 -b 1` writes the four lines to the output of index 0. -/
theorem main_round_robin_witness :
    ((1 : Int) ≤ 2 ∧ (2 : Int) ≤ INT_MAX ∧ (1 : Int) ≤ 1 ∧ (1 : Int) ≤ INT_MAX ∧
      lines_fit INPUT_BUFFER_SIZE sample_lines = true ∧
      (copy_loop 2 1 LoopState.init (fgets_stream INPUT_BUFFER_SIZE sample_lines.flatten)).1[5]?
        = some (((5 : Nat) : Int) / (4 * 1) % 2, fputs_str "TTGA\n".data)) ∧
    (lines_fit INPUT_BUFFER_SIZE sample_record = true ∧
      main sample_env ["fqsplit", "-n", "2", "-b", "1", "base", "in.fq"] =
        (Outcome.exit 0,
          Event.opened Handle.input ::
            ((List.range (2 : Int).toNat).map (fun i => Event.opened (Handle.output i))
              ++ sample_record.enum.map
                  (fun kl => Event.wrote (((kl.1 : Int) / (4 * 1)) % 2) (fputs_str kl.2))
              ++ (List.range (2 : Int).toNat).map (fun i => Event.closed (Handle.output i))
              ++ [Event.closed Handle.input]))) :=
  ⟨⟨by decide, by decide, by decide, by decide, by decide,
      (main_round_robin 2 1 (by decide) (by decide) (by decide) (by decide)
        sample_lines (by decide)).2.2.2.1 5 (by decide)⟩,
    ⟨by decide,
      (main_round_robin 2 1 (by decide) (by decide) (by decide) (by decide)
        sample_record (by decide)).2.2.2.2 sample_env
        ["fqsplit", "-n", "2", "-b", "1", "base", "in.fq"]
        (by decide) (by decide) (by decide) (by decide) (by decide) (by decide) (by decide)
        (by decide)
        (by intro i hi; have hi2 : i < 2 := by omega
            interval_cases i <;> decide)⟩⟩

/-- Counterexample to C1 as stated.  The input is one record of four newline-terminated lines
whose second line has 3201 characters; with `nSplits = 2` and `bufferRecs = 1` the loop makes
five writes, and the line at position 3 is written to the output of index 1, while
`(3 / (4 * 1)) % 2 = 0`: the writes are not the ones the claim gives. -/
theorem main_round_robin_counterexample :
    (is_line ['@', 'r', '\n'] = true ∧ is_line long_line = true ∧ is_line ['+', '\n'] = true
      ∧ is_line ['I', '\n'] = true) ∧
    copy_loop 2 1 LoopState.init
        (fgets_stream INPUT_BUFFER_SIZE
          [['@', 'r', '\n'], long_line, ['+', '\n'], ['I', '\n']].flatten)
      = ([(0, ['@', 'r', '\n']), (0, List.replicate 3199 'A'), (0, ['A', '\n']),
          (0, ['+', '\n']), (1, ['I', '\n'])], none) ∧
    ((3 : Nat) : Int) / (4 * 1) % 2 = 0 ∧
    (copy_loop 2 1 LoopState.init
        (fgets_stream INPUT_BUFFER_SIZE
          [['@', 'r', '\n'], long_line, ['+', '\n'], ['I', '\n']].flatten)).1
      ≠ [['@', 'r', '\n'], long_line, ['+', '\n'], ['I', '\n']].enum.map
          (fun kl => (((kl.1 : Int) / (4 * 1)) % 2, fputs_str kl.2)) := by
  have htrace : copy_loop 2 1 LoopState.init
        (fgets_stream INPUT_BUFFER_SIZE
          [['@', 'r', '\n'], long_line, ['+', '\n'], ['I', '\n']].flatten)
      = ([(0, ['@', 'r', '\n']), (0, List.replicate 3199 'A'), (0, ['A', '\n']),
          (0, ['+', '\n']), (1, ['I', '\n'])], none) := by
    rw [fgets_stream_long_record_lines]
    exact copy_loop_five_text _ _ _ _ _ (by decide) (replicate_no_nul 'A' (by decide) 3199)
      (by decide) (by decide) (by decide)
  refine ⟨⟨by decide, is_line_replicate 'A' (by decide) 3200, by decide, by decide⟩, htrace,
    by decide, ?_⟩
  rw [htrace]
  intro h
  have hlen := congrArg List.length h
  simp only [List.length_cons, List.length_nil, List.length_map, List.enum_length] at hlen
  omega

/-- C2 (amended).  Lossless, order-preserving split.  Let the input be made of the lines `L`,
each of at most `INPUT_BUFFER_SIZE - 1 = 3199` characters, its newline included, and none
holding a NUL character.  Then for `nSplits = n ≥ 1` (in the range of a C `int`) and every
`bufferRecs = b` (so in particular every `b ≥ 1`) the copy loop of `main` reads the input back
line by line and ends without fault; it makes exactly one write per line, of the whole line, in
the order of `L`; every write goes to an index in `[0, n)`; the content of every output is a
subsequence of `L`; and the lengths of the contents of the `n` outputs add up to the length of
`L`. -/
theorem main_lossless_split (n b : Int) (hn : 1 ≤ n) (hn' : n ≤ INT_MAX)
    (L : List (List Char)) (hL : lines_fit INPUT_BUFFER_SIZE L = true)
    (hnul : no_nul L = true) :
    fgets_stream INPUT_BUFFER_SIZE L.flatten = L ∧
    (copy_loop n b LoopState.init (fgets_stream INPUT_BUFFER_SIZE L.flatten)).2 = none ∧
    (copy_loop n b LoopState.init (fgets_stream INPUT_BUFFER_SIZE L.flatten)).1.map Prod.snd
      = L ∧
    (∀ w ∈ (copy_loop n b LoopState.init (fgets_stream INPUT_BUFFER_SIZE L.flatten)).1,
      0 ≤ w.1 ∧ w.1 < n) ∧
    (∀ i : Int,
      (shard (copy_loop n b LoopState.init (fgets_stream INPUT_BUFFER_SIZE L.flatten)).1
        i).Sublist L) ∧
    ∑ i ∈ Finset.range n.toNat,
      (shard (copy_loop n b LoopState.init (fgets_stream INPUT_BUFFER_SIZE L.flatten)).1
        (i : Int)).length = L.length := by
  have hread := fgets_stream_lines INPUT_BUFFER_SIZE (by decide) L hL
  rw [hread]
  obtain ⟨h1, h2, h3⟩ := copy_loop_lossless n b hn hn' L LoopState.init (le_refl _)
    (by show (0 : Int) < n; omega)
  rw [map_fputs_str_eq_self L hnul] at h2
  refine ⟨rfl, h1, h2, h3, ?_, ?_⟩
  · intro i
    have := shard_sublist (copy_loop n b LoopState.init L).1 i
    rwa [h2] at this
  · have hlen := congrArg List.length h2
    rw [List.length_map] at hlen
    rw [← hlen]
    apply shard_length_sum
    intro w hw
    have := h3 w hw
    omega

/-- Instance of C2: three outputs, blocks of one record, the eight lines of `sample_lines`. -/
theorem main_lossless_split_witness :
    (1 : Int) ≤ 3 ∧ (3 : Int) ≤ INT_MAX ∧ lines_fit INPUT_BUFFER_SIZE sample_lines = true ∧
    no_nul sample_lines = true ∧
    (copy_loop 3 1 LoopState.init
      (fgets_stream INPUT_BUFFER_SIZE sample_lines.flatten)).1.map Prod.snd = sample_lines :=
  ⟨by decide, by decide, by decide, by decide,
    (main_lossless_split 3 1 (by decide) (by decide) sample_lines (by decide)
      (by decide)).2.2.1⟩

/-- Counterexample to C2 as stated, with `nSplits = 2` and `bufferRecs = 1`.  On a record of
four newline-terminated lines whose fourth line has 3201 characters, the first 3199 characters
of that line are written to the output of index 0 and its last two to the output of index 1:
the line is not written to one output, and the content of output 0 is not a subsequence of the
lines.  On the one line `AB`, NUL, `CD`, newline, only `AB` is written. -/
theorem main_lossless_split_counterexample :
    ((is_line ['@', 'r', '\n'] = true ∧ is_line ['A', 'C', '\n'] = true
        ∧ is_line ['+', '\n'] = true ∧ is_line long_qual = true) ∧
      copy_loop 2 1 LoopState.init
          (fgets_stream INPUT_BUFFER_SIZE
            [['@', 'r', '\n'], ['A', 'C', '\n'], ['+', '\n'], long_qual].flatten)
        = ([(0, ['@', 'r', '\n']), (0, ['A', 'C', '\n']), (0, ['+', '\n']),
            (0, List.replicate 3199 'I'), (1, ['I', '\n'])], none) ∧
      ¬ (shard (copy_loop 2 1 LoopState.init
          (fgets_stream INPUT_BUFFER_SIZE
            [['@', 'r', '\n'], ['A', 'C', '\n'], ['+', '\n'], long_qual].flatten)).1
          0).Sublist [['@', 'r', '\n'], ['A', 'C', '\n'], ['+', '\n'], long_qual]) ∧
    (is_line nul_line = true ∧
      copy_loop 2 1 LoopState.init (fgets_stream INPUT_BUFFER_SIZE [nul_line].flatten)
        = ([(0, ['A', 'B'])], none) ∧
      (copy_loop 2 1 LoopState.init
        (fgets_stream INPUT_BUFFER_SIZE [nul_line].flatten)).1.map Prod.snd ≠ [nul_line]) := by
  have htrace : copy_loop 2 1 LoopState.init
        (fgets_stream INPUT_BUFFER_SIZE
          [['@', 'r', '\n'], ['A', 'C', '\n'], ['+', '\n'], long_qual].flatten)
      = ([(0, ['@', 'r', '\n']), (0, ['A', 'C', '\n']), (0, ['+', '\n']),
          (0, List.replicate 3199 'I'), (1, ['I', '\n'])], none) := by
    rw [fgets_stream_long_qual_lines]
    exact copy_loop_five_text _ _ _ _ _ (by decide) (by decide) (by decide)
      (replicate_no_nul 'I' (by decide) 3199) (by decide)
  refine ⟨⟨⟨by decide, by decide, by decide, is_line_replicate 'I' (by decide) 3200⟩, htrace,
    ?_⟩, by decide, by decide, by decide⟩
  rw [htrace]
  intro hsub
  rw [shard_five] at hsub
  have heq := hsub.eq_of_length (by simp only [List.length_cons, List.length_nil])
  have h4 : List.replicate 3199 'I' = long_qual :=
    (List.cons.inj (List.cons.inj (List.cons.inj (List.cons.inj heq).2).2).2).1
  have hlen := congrArg List.length h4
  unfold long_qual at hlen
  rw [List.length_replicate, List.length_append, List.length_replicate] at hlen
  simp at hlen

/-- C3. The function `flag_parser` on the first `argc` tokens of `argv`.  Let `j < argc` be the
smallest index whose token is `shortflag` or `longflag`.  If `j < argc - 1` the result is
`argv[j + 1]`; if `j = argc - 1` the result is `failstr`; and if no index below `argc` holds
either spelling the result is `failstr`. -/
theorem flag_parser_first_match (shortflag longflag failstr : String) (argv : List String)
    (argc : Int) (hargc : argc ≤ argv.length) :
    (∀ j : Nat, (j : Int) < argc →
        (argv[j]? = some shortflag ∨ argv[j]? = some longflag) →
        (∀ i : Nat, i < j → argv[i]? ≠ some shortflag ∧ argv[i]? ≠ some longflag) →
        ((j : Int) < argc - 1 →
          some (flag_parser_fn shortflag longflag failstr argv argc) = argv[j + 1]?) ∧
        ((j : Int) = argc - 1 → flag_parser_fn shortflag longflag failstr argv argc = failstr)) ∧
    ((∀ i : Nat, (i : Int) < argc → argv[i]? ≠ some shortflag ∧ argv[i]? ≠ some longflag) →
        flag_parser_fn shortflag longflag failstr argv argc = failstr) :=
  flag_parser_spec shortflag longflag failstr argv argc hargc

/-- Instance of C3: the first of two occurrences decides, and a flag in the last searched
position falls back to the default. -/
theorem flag_parser_first_match_witness :
    ((4 : Int) ≤ (["fqsplit", "--n-splits", "3", "-n", "7", "in.fq"] : List String).length ∧
      some (flag_parser_fn "-n" "--n-splits" "5"
        ["fqsplit", "--n-splits", "3", "-n", "7", "in.fq"] 4) = some "3") ∧
    ((2 : Int) ≤ (["fqsplit", "-n", "3", "7"] : List String).length ∧
      flag_parser_fn "-n" "--n-splits" "5" ["fqsplit", "-n", "3", "7"] 2 = "5") :=
  ⟨⟨by decide,
      ((flag_parser_first_match "-n" "--n-splits" "5"
        ["fqsplit", "--n-splits", "3", "-n", "7", "in.fq"] 4 (by decide)).1 1 (by decide)
        (Or.inr rfl) (by intro i hi; interval_cases i; decide)).1 (by decide)⟩,
    ⟨by decide,
      ((flag_parser_first_match "-n" "--n-splits" "5" ["fqsplit", "-n", "3", "7"] 2
        (by decide)).1 1 (by decide)
        (Or.inl rfl) (by intro i hi; interval_cases i; decide)).2 (by decide)⟩⟩

/-- C4. Parse-error exit of `main`.  For every argument vector the run ends with exit status 1
exactly when `-h` or `--help` occurs somewhere in `argv` or `argc ≤ 3`; and a run that ends
with exit status 1 has no event at all: no file was opened. -/
theorem main_parse_error_exit (env : Env) (argv : List String) :
    ((main env argv).1 = Outcome.exit 1
      ↔ (("-h" ∈ argv ∨ "--help" ∈ argv) ∨ argv.length ≤ 3)) ∧
    ((main env argv).1 = Outcome.exit 1 → (main env argv).2 = []) := by
  have hsw := switch_parser_all "-h" "--help" argv
  by_cases h1 : switch_parser_fn "-h" "--help" argv (argv.length : Int) = true
  · rw [main_help env argv h1]
    simp [hsw.1 h1]
  · have hno : ¬ ("-h" ∈ argv ∨ "--help" ∈ argv) := fun h => h1 (hsw.2 h)
    by_cases h2 : (argv.length : Int) > MIN_CMDARGS + 1
    · have hlen : ¬ argv.length ≤ 3 := by unfold MIN_CMDARGS at h2; omega
      have h1' : switch_parser_fn "-h" "--help" argv (argv.length : Int) = false := by
        simpa using h1
      have hne : ∀ c : Int, c ≠ 1 → ∀ evs : List Event,
          ((Outcome.exit c, evs).1 = Outcome.exit 1
            ↔ (("-h" ∈ argv ∨ "--help" ∈ argv) ∨ argv.length ≤ 3)) ∧
          ((Outcome.exit c, evs).1 = Outcome.exit 1 → (Outcome.exit c, evs).2 = []) := by
        intro c hc evs
        simp [hno, hlen, hc]
      by_cases h3 : file_open env 0 (parse_user_args env argv).inputFastq "r" = 0
      · by_cases h4 : (parse_user_args env argv).nSplits < env.FOPEN_MAX - 1
        · cases h5 : open_outputs env (parse_user_args env argv)
            (List.range (parse_user_args env argv).nSplits.toNat) with
          | error evs =>
            rw [main_open_fail env argv h1' h2 h3 h4 evs h5]
            exact hne 2 (by decide) _
          | ok evs =>
            cases h6 : (copy_loop (parse_user_args env argv).nSplits
              (parse_user_args env argv).bufferRecs LoopState.init
              (fgets_stream INPUT_BUFFER_SIZE env.input)).2 with
            | some f =>
              rw [main_copy_fault env argv h1' h2 h3 h4 evs h5 f h6]
              simp [hno, hlen]
            | none =>
              rw [main_copy_done env argv h1' h2 h3 h4 evs h5 h6]
              exact hne 0 (by decide) _
        · rw [main_too_many env argv h1' h2 h3 h4]
          exact hne 3 (by decide) _
      · rw [main_input_fail env argv h1' h2 h3]
        exact hne 2 (by decide) _
    · have hlen : argv.length ≤ 3 := by unfold MIN_CMDARGS at h2; omega
      rw [main_few_args env argv h2]
      simp [hlen]

/-- Instance of C4: a help flag in the place of the value of `-o` ends the run with status 1
before any file is opened. -/
theorem main_parse_error_exit_witness :
    (main sample_env ["fqsplit", "-o", "--help", "base", "in.fq"]).1 = Outcome.exit 1 ∧
    (main sample_env ["fqsplit", "-o", "--help", "base", "in.fq"]).2 = [] :=
  ⟨by decide,
    (main_parse_error_exit sample_env ["fqsplit", "-o", "--help", "base", "in.fq"]).2
      (by decide)⟩

/-- C5 (what the code does).  In a run whose arguments parse and whose input opens, the exit
status is 3 exactly when `nSplits ≥ FOPEN_MAX - 1`.  In particular the value
`nSplits = FOPEN_MAX - 1`, which the error message of lines 220-222 names as permitted
("should be less than or equal to `FOPEN_MAX - 1`"), is rejected: the run ends with status 3
after closing the input and opens no output. -/
theorem main_split_limit (env : Env) (argv : List String)
    (hh1 : "-h" ∉ argv) (hh2 : "--help" ∉ argv) (hlen : 3 < argv.length)
    (h3 : file_open env 0 (parse_user_args env argv).inputFastq "r" = 0) :
    ((main env argv).1 = Outcome.exit 3
      ↔ env.FOPEN_MAX - 1 ≤ (parse_user_args env argv).nSplits) ∧
    ((parse_user_args env argv).nSplits = env.FOPEN_MAX - 1 →
      main env argv
        = (Outcome.exit 3, [Event.opened Handle.input, Event.closed Handle.input])) := by
  have hsw := switch_parser_all "-h" "--help" argv
  have h1 : switch_parser_fn "-h" "--help" argv (argv.length : Int) = false := by
    cases hs : switch_parser_fn "-h" "--help" argv (argv.length : Int) with
    | false => rfl
    | true =>
      rcases hsw.1 hs with h | h
      · exact absurd h hh1
      · exact absurd h hh2
  have h2 : (argv.length : Int) > MIN_CMDARGS + 1 := by unfold MIN_CMDARGS; omega
  constructor
  · by_cases h4 : (parse_user_args env argv).nSplits < env.FOPEN_MAX - 1
    · have hnot : ¬ env.FOPEN_MAX - 1 ≤ (parse_user_args env argv).nSplits := by omega
      cases h5 : open_outputs env (parse_user_args env argv)
        (List.range (parse_user_args env argv).nSplits.toNat) with
      | error evs =>
        rw [main_open_fail env argv h1 h2 h3 h4 evs h5]
        simp [hnot]
      | ok evs =>
        cases h6 : (copy_loop (parse_user_args env argv).nSplits
          (parse_user_args env argv).bufferRecs LoopState.init
          (fgets_stream INPUT_BUFFER_SIZE env.input)).2 with
        | some f =>
          rw [main_copy_fault env argv h1 h2 h3 h4 evs h5 f h6]
          simp [hnot]
        | none =>
          rw [main_copy_done env argv h1 h2 h3 h4 evs h5 h6]
          simp [hnot]
    · rw [main_too_many env argv h1 h2 h3 h4]
      have : env.FOPEN_MAX - 1 ≤ (parse_user_args env argv).nSplits := by omega
      simp [this]
  · intro hn
    exact main_too_many env argv h1 h2 h3 (by omega)

/-- Instance of C5: with `FOPEN_MAX = 16` the request `-n 15` ends with status 3. -/
theorem main_split_limit_witness :
    (parse_user_args sample_env ["fqsplit", "-n", "15", "base", "in.fq"]).nSplits
      = sample_env.FOPEN_MAX - 1 ∧
    main sample_env ["fqsplit", "-n", "15", "base", "in.fq"]
      = (Outcome.exit 3, [Event.opened Handle.input, Event.closed Handle.input]) :=
  ⟨by decide,
    (main_split_limit sample_env ["fqsplit", "-n", "15", "base", "in.fq"]
      (by decide) (by decide) (by decide) (by decide)).2 (by decide)⟩

/-- C6. The function `build_outpath`.  For every `uargs` and `splitidx` the path is
`outputDir ++ "/" ++ decimal(splitidx) ++ "-of-" ++ decimal(nSplits) ++ "." ++ outputBase ++
".fastq"`, where the decimal numeral of a natural number denotes that number; the value of
`smkFormat` does not change the path; and index 3 of 8 with base `sampleA` in `/tmp/out` gives
`/tmp/out/3-of-8.sampleA.fastq`. -/
theorem build_outpath_format (uargs : UserArgs) (splitidx : Int) :
    build_outpath uargs splitidx
      = uargs.outputDir ++ "/" ++ fmt_d splitidx ++ "-of-" ++ fmt_d uargs.nSplits ++ "."
          ++ uargs.outputBase ++ ".fastq" ∧
    (∀ k : Nat, decode_digits 0 (fmt_d (k : Int)).data = k) ∧
    build_outpath { uargs with smkFormat := true } splitidx
      = build_outpath { uargs with smkFormat := false } splitidx ∧
    (∀ (b : Int) (s : Bool) (inp : String),
      build_outpath
        { nSplits := 8, bufferRecs := b, smkFormat := s, outputDir := "/tmp/out",
          outputBase := "sampleA", inputFastq := inp } 3
        = "/tmp/out/3-of-8.sampleA.fastq") := by
  refine ⟨build_outpath_eq uargs splitidx, ?_, ?_, ?_⟩
  · intro k
    unfold fmt_d
    rw [if_neg (by omega)]
    simpa using decode_repr k
  · rw [build_outpath_eq, build_outpath_eq]
  · intro b s inp
    unfold build_outpath
    simp only []
    decide

/-- C7. Open/close pairing in `main`, for every choice of the `fopen` calls that succeed.
Whenever the run ends with an exit status, its events are paired: every session that was
opened is closed exactly once, after it was opened, and nothing else is closed.  In
particular, when the arguments parse, the split count passes the limit check, the input and
the outputs `0, ..., i - 1` open and the output `i < nSplits` does not, the run opens the input
and the outputs `0, ..., i - 1`, closes the outputs `i - 1, ..., 0` and then the input, and
ends with status 2. -/
theorem main_sessions_paired (env : Env) (argv : List String) :
    (∀ (code : Int) (evs : List Event),
        main env argv = (Outcome.exit code, evs) → sessions_paired evs) ∧
    (∀ i : Nat, "-h" ∉ argv → "--help" ∉ argv → 3 < argv.length →
        (parse_user_args env argv).nSplits < env.FOPEN_MAX - 1 →
        (i : Int) < (parse_user_args env argv).nSplits →
        file_open env 0 (parse_user_args env argv).inputFastq "r" = 0 →
        (∀ j : Nat, j < i →
          file_open env (j + 1) (build_outpath (parse_user_args env argv) ((j : Int) + 1)) "w"
            = 0) →
        file_open env (i + 1) (build_outpath (parse_user_args env argv) ((i : Int) + 1)) "w"
            ≠ 0 →
        main env argv = (Outcome.exit 2,
          Event.opened Handle.input ::
            ((List.range i).map (fun k => Event.opened (Handle.output k))
              ++ ((List.range i).reverse.map (fun k => Event.closed (Handle.output k))
              ++ [Event.closed Handle.input])))) := by
  have hsw := switch_parser_all "-h" "--help" argv
  constructor
  · intro code evs hmain
    by_cases h1 : switch_parser_fn "-h" "--help" argv (argv.length : Int) = true
    · rw [main_help env argv h1] at hmain
      injection hmain with _ he
      subst he; decide
    · have h1' : switch_parser_fn "-h" "--help" argv (argv.length : Int) = false := by
        simpa using h1
      by_cases h2 : (argv.length : Int) > MIN_CMDARGS + 1
      · by_cases h3 : file_open env 0 (parse_user_args env argv).inputFastq "r" = 0
        · by_cases h4 : (parse_user_args env argv).nSplits < env.FOPEN_MAX - 1
          · rcases open_outputs_range env (parse_user_args env argv)
              (parse_user_args env argv).nSplits.toNat 0 with hok | ⟨d, _, herr⟩
            · rw [← List.range_eq_range'] at hok
              cases h6 : (copy_loop (parse_user_args env argv).nSplits
                (parse_user_args env argv).bufferRecs LoopState.init
                (fgets_stream INPUT_BUFFER_SIZE env.input)).2 with
              | some f =>
                rw [main_copy_fault env argv h1' h2 h3 h4 _ hok f h6] at hmain
                injection hmain with hc _
                exact absurd hc (by simp)
              | none =>
                rw [main_copy_done env argv h1' h2 h3 h4 _ hok h6] at hmain
                injection hmain with _ he
                subst he
                rw [List.range_eq_range']
                have := sessions_paired_run (parse_user_args env argv).nSplits.toNat
                  (copy_loop (parse_user_args env argv).nSplits
                    (parse_user_args env argv).bufferRecs LoopState.init
                    (fgets_stream INPUT_BUFFER_SIZE env.input)).1
                rw [List.range_eq_range'] at this
                exact this
            · rw [← List.range_eq_range'] at herr
              rw [main_open_fail env argv h1' h2 h3 h4 _ herr] at hmain
              injection hmain with _ he
              subst he
              exact sessions_paired_unwind d
          · rw [main_too_many env argv h1' h2 h3 h4] at hmain
            injection hmain with _ he
            subst he; decide
        · rw [main_input_fail env argv h1' h2 h3] at hmain
          injection hmain with _ he
          subst he; decide
      · rw [main_few_args env argv h2] at hmain
        injection hmain with _ he
        subst he; decide
  · intro i hh1 hh2 hlen h4 hi h3 hfirst hfail
    have h1 : switch_parser_fn "-h" "--help" argv (argv.length : Int) = false := by
      cases hs : switch_parser_fn "-h" "--help" argv (argv.length : Int) with
      | false => rfl
      | true =>
        rcases hsw.1 hs with h | h
        · exact absurd h hh1
        · exact absurd h hh2
    have h2 : (argv.length : Int) > MIN_CMDARGS + 1 := by unfold MIN_CMDARGS; omega
    have hiN : i < (parse_user_args env argv).nSplits.toNat := by omega
    have herr := open_outputs_first_fail env (parse_user_args env argv) (List.range i)
      (List.range' (i + 1) ((parse_user_args env argv).nSplits.toNat - i - 1)) i
      (fun k hk => hfirst k (List.mem_range.1 hk)) hfail
    rw [← range_split _ i hiN] at herr
    exact main_open_fail env argv h1 h2 h3 h4 _ herr

/-- Instance of C7: five outputs requested and the open of the output of index 2 fails; the
outputs 0 and 1 are opened and closed again, the input is closed, and the status is 2. -/
theorem main_sessions_paired_witness :
    sessions_paired (main sample_env_fail ["fqsplit", "-o", "/nowhere", "base", "in.fq"]).2 ∧
    main sample_env_fail ["fqsplit", "-o", "/nowhere", "base", "in.fq"]
      = (Outcome.exit 2,
          [Event.opened Handle.input, Event.opened (Handle.output 0),
           Event.opened (Handle.output 1), Event.closed (Handle.output 1),
           Event.closed (Handle.output 0), Event.closed Handle.input]) :=
  ⟨(main_sessions_paired sample_env_fail ["fqsplit", "-o", "/nowhere", "base", "in.fq"]).1
      2 _ (by decide),
    (main_sessions_paired sample_env_fail ["fqsplit", "-o", "/nowhere", "base", "in.fq"]).2
      2 (by decide) (by decide) (by decide) (by decide) (by decide) (by decide)
      (by intro j hj; interval_cases j <;> decide) (by decide)⟩

/-- C8 (what the code does).  A split count `nSplits ≤ 0` passes the check of line 198.  In
such a run, when the arguments parse, the input opens and is not empty, no output is opened
and the first iteration of the copy loop uses `outFileInfoArr[0]`, an index outside
`[0, nSplits)`: the run ends in undefined behaviour. -/
theorem main_nonpositive_splits (env : Env) (argv : List String)
    (hh1 : "-h" ∉ argv) (hh2 : "--help" ∉ argv) (hlen : 3 < argv.length)
    (h3 : file_open env 0 (parse_user_args env argv).inputFastq "r" = 0)
    (h4 : (parse_user_args env argv).nSplits < env.FOPEN_MAX - 1)
    (hn : (parse_user_args env argv).nSplits ≤ 0) (hin : env.input ≠ []) :
    main env argv = (Outcome.fault (Fault.badIndex 0), [Event.opened Handle.input]) := by
  have hsw := switch_parser_all "-h" "--help" argv
  have h1 : switch_parser_fn "-h" "--help" argv (argv.length : Int) = false := by
    cases hs : switch_parser_fn "-h" "--help" argv (argv.length : Int) with
    | false => rfl
    | true =>
      rcases hsw.1 hs with h | h
      · exact absurd h hh1
      · exact absurd h hh2
  have h2 : (argv.length : Int) > MIN_CMDARGS + 1 := by unfold MIN_CMDARGS; omega
  have h0 : (parse_user_args env argv).nSplits.toNat = 0 := by omega
  have h5 : open_outputs env (parse_user_args env argv)
      (List.range (parse_user_args env argv).nSplits.toNat) = Except.ok [] := by
    rw [h0]; rfl
  have hloop : copy_loop (parse_user_args env argv).nSplits
      (parse_user_args env argv).bufferRecs LoopState.init
      (fgets_stream INPUT_BUFFER_SIZE env.input) = ([], some (Fault.badIndex 0)) := by
    rw [fgets_stream_cons INPUT_BUFFER_SIZE (by decide) env.input hin, copy_loop]
    have : ¬ ((0 : Int) ≤ LoopState.init.arrIdx
        ∧ LoopState.init.arrIdx < (parse_user_args env argv).nSplits) := by
      simp only [LoopState.init]; omega
    rw [if_neg this]
    rfl
  have h6 := congrArg Prod.snd hloop
  have h7 := congrArg Prod.fst hloop
  simp only at h6 h7
  rw [main_copy_fault env argv h1 h2 h3 h4 [] h5 (Fault.badIndex 0) h6, h7]
  rfl

/-- Instance of C8: the request `-n 0` on a one-record input. -/
theorem main_nonpositive_splits_witness :
    (parse_user_args sample_env ["fqsplit", "-n", "0", "base", "in.fq"]).nSplits
      < sample_env.FOPEN_MAX - 1 ∧
    main sample_env ["fqsplit", "-n", "0", "base", "in.fq"]
      = (Outcome.fault (Fault.badIndex 0), [Event.opened Handle.input]) :=
  ⟨by decide,
    main_nonpositive_splits sample_env ["fqsplit", "-n", "0", "base", "in.fq"]
      (by decide) (by decide) (by decide) (by decide) (by decide) (by decide) (by decide)⟩

/-- C9. Long lines break record alignment.  The input is read in pieces that, put end to end,
give back the input; every piece has between 1 and `INPUT_BUFFER_SIZE - 1 = 3199` characters
and ends with a newline, or has exactly 3199 characters, or ends where the input ends; so on an
input whose last character is a newline every piece ends with a newline or has exactly 3199
characters.  The copy loop makes one iteration, with one write (of what `fputs` writes of the
piece), per piece.  Consequently there
is an input of one complete record of four newline-terminated lines, the second longer than
3199 characters, for which `nSplits = 2` and `bufferRecs = 1` send the third line to the
output of index 0 and the fourth line to the output of index 1. -/
theorem long_line_breaks_alignment :
    (∀ s : List Char,
      (fgets_stream INPUT_BUFFER_SIZE s).flatten = s ∧
      (∀ p ∈ fgets_stream INPUT_BUFFER_SIZE s, 1 ≤ p.length ∧ p.length ≤ 3199 ∧
        (p.getLast? = some '\n' ∨ p.length = 3199 ∨ p.getLast? = s.getLast?)) ∧
      (s.getLast? = some '\n' → ∀ p ∈ fgets_stream INPUT_BUFFER_SIZE s,
        p.getLast? = some '\n' ∨ p.length = 3199) ∧
      (copy_loop 2 1 LoopState.init (fgets_stream INPUT_BUFFER_SIZE s)).1.map Prod.snd
        = (fgets_stream INPUT_BUFFER_SIZE s).map fputs_str) ∧
    (∃ l1 l2 l3 l4 : List Char,
      is_line l1 = true ∧ is_line l2 = true ∧ is_line l3 = true ∧ is_line l4 = true ∧
      3199 < l2.length ∧
      ∃ p q : List Char, l2 = p ++ q ∧
        copy_loop 2 1 LoopState.init (fgets_stream INPUT_BUFFER_SIZE (l1 ++ l2 ++ l3 ++ l4))
          = ([(0, l1), (0, p), (0, q), (0, l3), (1, l4)], none)) := by
  constructor
  · intro s
    obtain ⟨h1, h2⟩ := fgets_stream_spec INPUT_BUFFER_SIZE (by decide) s.length s (le_refl _)
    refine ⟨h1, h2, ?_, ?_⟩
    · intro hs p hp
      rcases (h2 p hp).2.2 with h | h | h
      · exact Or.inl h
      · exact Or.inr h
      · exact Or.inl (h.trans hs)
    · exact (copy_loop_lossless 2 1 (by decide) (by decide) _ LoopState.init (le_refl _)
        (by decide)).2.1
  · refine ⟨['@', 'r', '\n'], long_line, ['+', '\n'], ['I', '\n'], by decide, ?_, by decide,
      by decide, ?_, List.replicate 3199 'A', ['A', '\n'], ?_, ?_⟩
    · unfold is_line long_line
      rw [List.dropLast_concat]
      simp only [List.getLast?_append, List.getLast?_singleton, Option.or_some, decide_True,
        Bool.true_and, List.all_eq_true]
      intro c hc
      rw [List.eq_of_mem_replicate hc]
      decide
    · unfold long_line
      rw [List.length_append, List.length_replicate]
      decide
    · unfold long_line
      rw [show (3200 : Nat) = 3199 + 1 from rfl, List.replicate_succ', List.append_assoc]
      rfl
    · have := fgets_stream_long_record
      unfold long_record at this
      rw [this]
      exact copy_loop_five_text _ _ _ _ _ (by decide) (replicate_no_nul 'A' (by decide) 3199)
        (by decide) (by decide) (by decide)

/-- Instance of C9 on a short input that ends with a newline. -/
theorem long_line_breaks_alignment_witness :
    ['@', 'r', '\n'].getLast? = some '\n' ∧
    ∀ p ∈ fgets_stream INPUT_BUFFER_SIZE ['@', 'r', '\n'],
      p.getLast? = some '\n' ∨ p.length = 3199 :=
  ⟨by decide, (long_line_breaks_alignment.1 ['@', 'r', '\n']).2.2.1 (by decide)⟩

/-- C10. Output paths are pairwise distinct.  For every `uargs` and every two shard numbers
`i ≠ j` with `1 ≤ i, j ≤ nSplits`, `build_outpath` gives different paths for `i` and `j`. -/
theorem build_outpath_distinct (uargs : UserArgs) (i j : Int)
    (hi : 1 ≤ i) (_hin : i ≤ uargs.nSplits) (hj : 1 ≤ j) (_hjn : j ≤ uargs.nSplits)
    (hij : i ≠ j) :
    build_outpath uargs i ≠ build_outpath uargs j :=
  fun h => hij (build_outpath_injective uargs i j hi hj h)

/-- Instance of C10: shards 1 and 10 of 12. -/
theorem build_outpath_distinct_witness :
    build_outpath (parse_user_args sample_env ["fqsplit", "-n", "12", "base", "in.fq"]) 1
      ≠ build_outpath (parse_user_args sample_env ["fqsplit", "-n", "12", "base", "in.fq"])
          10 :=
  build_outpath_distinct (parse_user_args sample_env ["fqsplit", "-n", "12", "base", "in.fq"])
    1 10 (by decide) (by decide) (by decide) (by decide) (by decide)

end Fqsplit
